import Mathlib

/-!
# ceresmeta: key-path encoding and cluster Manager

Part one embeds `server/storage/key_path.go` together with the two standard
library functions it calls, `fmt.Sprintf("%020d", _)` and `path.Join`. Part two
models the Manager that `server/cluster/manager_test.go` exercises. All
definitions come first, the theorems follow.

Go strings are byte sequences; a string is modelled as the list of its bytes,
each byte a natural number. Comparison of Go strings with `<` is bytewise
lexicographic: `strLess`.

Unsigned machine integers (`uint32`, `uint64`) are natural numbers; the range of
the Go type appears as a hypothesis (`c < 2 ^ 32`, `id < 2 ^ 64`) where it
matters. The conversions `uint64(clusterID)` widen and never change the value.
-/

/-- A Go string: the list of its bytes. -/
abbrev Str := List Nat

/-- Bytes of an ASCII string literal. -/
def ascii (s : String) : Str := s.toList.map Char.toNat

/-- Go's `<` on strings: bytewise lexicographic order. -/
def strLess (a b : Str) : Prop := List.Lex (· < ·) a b

instance (a b : Str) : Decidable (strLess a b) := by unfold strLess; infer_instance

/-! ## Go standard library: `fmt.Sprintf("%020d", _)` and `path.Join` -/

namespace gofmt

/-- The base-10 loop of `fmt.(*fmt).fmtInteger`, writing right to left:
`for u >= 10 { i--; next := u / 10; buf[i] = byte('0' + u - next*10); u = next }`
followed by `i--; buf[i] = digits[u]`. The accumulator is `buf[i:]`. The first
argument bounds the number of iterations; the loop divides `u` by ten each time,
so `u` itself is a sufficient bound (`fmtDecimal_fuel`). -/
def fmtDecimal : Nat → Nat → Str → Str
  | 0, u, acc => (48 + u) :: acc
  | fuel + 1, u, acc =>
    if 10 ≤ u then fmtDecimal fuel (u / 10) ((48 + (u - u / 10 * 10)) :: acc)
    else (48 + u) :: acc

/-- The zero padding of `fmtInteger` for the flags of `%0<wid>d` (`prec = f.wid`):
`for i > 0 && prec > len(buf)-i { i--; buf[i] = '0' }`. -/
def zeroPad (wid : Nat) (ds : Str) : Str :=
  List.replicate (wid - ds.length) 48 ++ ds

/-- The string `fmt.Sprintf("%0<wid>d", u)` for an unsigned `u`. -/
def sprintfZeroPadded (wid u : Nat) : Str :=
  zeroPad wid (fmtDecimal u u [])

/-- The decimal digits of `u` as `fmtInteger` writes them. -/
def decimal (u : Nat) : Str := fmtDecimal u u []

/-- The `k` low decimal digits of `n`, most significant first, as ASCII bytes. -/
def fixed : Nat → Nat → Str
  | 0, _ => []
  | k + 1, n => fixed k (n / 10) ++ [48 + n % 10]

/-- Value of a big-endian string of ASCII decimal digits. -/
def decode (s : Str) : Nat := s.foldl (fun acc ch => acc * 10 + (ch - 48)) 0

end gofmt

namespace gopath

/-- The byte `'/'`. -/
def slash : Nat := 47

/-- The byte `'.'`. -/
def dot : Nat := 46

/-- The copy loop of `path.Clean`:
`for ; r < n && path[r] != '/'; r++ { out.append(path[r]) }`.
Returns the unread input and the output buffer. -/
def copyElem : Str → Str → Str × Str
  | [], out => ([], out)
  | c :: t, out => if c = slash then (c :: t, out) else copyElem t (out ++ [c])

/-- The backtracking loop of `path.Clean` on a `..` element, started after the
first `out.w--`: `for out.w > dotdot && out.index(out.w) != '/' { out.w-- }`.
The argument is the current `out.w`; the result is the final `out.w`. -/
def backtrack (out : Str) (dotdot : Nat) : Nat → Nat
  | 0 => 0
  | w + 1 =>
    if dotdot < w + 1 ∧ out.getD (w + 1) 0 ≠ slash then backtrack out dotdot w else w + 1

/-- The main loop `for r < n { switch { ... } }` of `path.Clean`. The state is
the unread input `path[r:]`, the written output `out` (the first `out.w` bytes
of the lazy buffer) and `dotdot`. Every iteration reads at least one byte, so
the length of the input bounds the number of iterations; that bound is the
first explicit argument. -/
def cleanLoop (rooted : Bool) : Nat → Str → Str → Nat → Str
  | 0, _, out, _ => out
  | _ + 1, [], out, _ => out
  | fuel + 1, c :: t, out, dotdot =>
    if c = slash then
      -- empty path element
      cleanLoop rooted fuel t out dotdot
    else if c = dot ∧ (t = [] ∨ t.head? = some slash) then
      -- . element
      cleanLoop rooted fuel t out dotdot
    else if c = dot ∧ t.head? = some dot ∧ (t.tail = [] ∨ t.tail.head? = some slash) then
      -- .. element: remove to last /
      if dotdot < out.length then
        cleanLoop rooted fuel t.tail (out.take (backtrack out dotdot (out.length - 1))) dotdot
      else if rooted = false then
        let out2 := (if 0 < out.length then out ++ [slash] else out) ++ [dot, dot]
        cleanLoop rooted fuel t.tail out2 out2.length
      else
        cleanLoop rooted fuel t.tail out dotdot
    else
      -- real path element: add slash if needed, copy element
      let out1 :=
        if (rooted = true ∧ out.length ≠ 1) ∨ (rooted = false ∧ out.length ≠ 0) then out ++ [slash]
        else out
      let r := copyElem (c :: t) out1
      cleanLoop rooted fuel r.1 r.2 dotdot

/-- Go `path.Clean`. -/
def Clean (path : Str) : Str :=
  if path = [] then [dot]
  else
    let rooted : Bool := path.head? = some slash
    let out :=
      if rooted then cleanLoop rooted path.length path.tail [slash] 1
      else cleanLoop rooted path.length path [] 0
    if out.length = 0 then [dot] else out

/-- The buffer loop of `path.Join`:
`if len(buf) > 0 || e != "" { if len(buf) > 0 { buf = append(buf, '/') }; buf = append(buf, e...) }`. -/
def joinStep (buf e : Str) : Str :=
  if 0 < buf.length ∨ e ≠ [] then (if 0 < buf.length then buf ++ [slash] else buf) ++ e
  else buf

/-- Go `path.Join`. -/
def Join (elem : List Str) : Str :=
  if (elem.map List.length).sum = 0 then []
  else Clean (elem.foldl joinStep [])

/-- A path element that `Clean` copies unchanged: not empty, without `'/'`, and
neither `"."` nor `".."`. -/
def plain (s : Str) : Prop := s ≠ [] ∧ slash ∉ s ∧ s ≠ [dot] ∧ s ≠ [dot, dot]

instance (s : Str) : Decidable (plain s) := by unfold plain; infer_instance

/-- Every element preceded by `'/'`, concatenated. -/
def slashed : List Str → Str
  | [] => []
  | s :: ss => slash :: (s ++ slashed ss)

end gopath

/-! ## `package storage`: key_path.go -/

namespace storage

def version : Str := ascii "v1"
def cluster : Str := ascii "cluster"
def schema : Str := ascii "schema"
def table : Str := ascii "table"
def shard : Str := ascii "shard"
def node : Str := ascii "node"
def topology : Str := ascii "topo"
def latestVersion : Str := ascii "latest_version"
def info : Str := ascii "info"

/-- Source: `fmtID`, `fmt.Sprintf("%020d", id)`. -/
def fmtID (id : Nat) : Str := gofmt.sprintfZeroPadded 20 id

/-- Source: `makeSchemaKey`. -/
def makeSchemaKey (clusterID schemaID : Nat) : Str :=
  gopath.Join [version, cluster, fmtID clusterID, schema, info, fmtID schemaID]

/-- Source: `makeClusterKey`. -/
def makeClusterKey (clusterID : Nat) : Str :=
  gopath.Join [version, cluster, info, fmtID clusterID]

/-- Source: `makeTableKey`. -/
def makeTableKey (clusterID schemaID tableID : Nat) : Str :=
  gopath.Join [version, cluster, fmtID clusterID, schema, fmtID schemaID, table, fmtID tableID]

/-- Source: `makeShardTopologyKey`; its third parameter is a string that shadows
the package constant `latestVersion`. -/
def makeShardTopologyKey (clusterID shardID : Nat) (latestVersion : Str) : Str :=
  gopath.Join [version, cluster, fmtID clusterID, shard, fmtID shardID, latestVersion]

/-- Source: `makeClusterTopologyKey`; its second parameter is a string that
shadows the package constant `latestVersion`. -/
def makeClusterTopologyKey (clusterID : Nat) (latestVersion : Str) : Str :=
  gopath.Join [version, cluster, fmtID clusterID, topology, latestVersion]

/-- Source: `makeClusterTopologyLatestVersionKey`. -/
def makeClusterTopologyLatestVersionKey (clusterID : Nat) : Str :=
  gopath.Join [version, cluster, fmtID clusterID, topology, latestVersion]

/-- Source: `makeShardLatestVersionKey`. -/
def makeShardLatestVersionKey (clusterID shardID : Nat) : Str :=
  gopath.Join [version, cluster, fmtID clusterID, shard, fmtID shardID, latestVersion]

/-- Source: `makeNodeKey`. -/
def makeNodeKey (clusterID : Nat) (nodeName : Str) : Str :=
  gopath.Join [version, cluster, fmtID clusterID, node, nodeName]

/-- Source: `makeNameToIDKey`. -/
def makeNameToIDKey (clusterID schemaID : Nat) (tableName : Str) : Str :=
  gopath.Join [version, cluster, fmtID clusterID, schema, fmtID schemaID, table, tableName]

/-- A call of one of the nine key constructors of key_path.go: the constructor
together with its arguments. -/
inductive KeyCall where
  | clusterKey (clusterID : Nat)
  | schemaKey (clusterID schemaID : Nat)
  | tableKey (clusterID schemaID tableID : Nat)
  | nameToIDKey (clusterID schemaID : Nat) (tableName : Str)
  | shardTopologyKey (clusterID shardID : Nat) (latestVersion : Str)
  | shardLatestVersionKey (clusterID shardID : Nat)
  | clusterTopologyKey (clusterID : Nat) (latestVersion : Str)
  | clusterTopologyLatestVersionKey (clusterID : Nat)
  | nodeKey (clusterID : Nat) (nodeName : Str)
  deriving DecidableEq

/-- The string the call returns. -/
def KeyCall.key : KeyCall → Str
  | .clusterKey c => makeClusterKey c
  | .schemaKey c s => makeSchemaKey c s
  | .tableKey c s t => makeTableKey c s t
  | .nameToIDKey c s n => makeNameToIDKey c s n
  | .shardTopologyKey c s v => makeShardTopologyKey c s v
  | .shardLatestVersionKey c s => makeShardLatestVersionKey c s
  | .clusterTopologyKey c v => makeClusterTopologyKey c v
  | .clusterTopologyLatestVersionKey c => makeClusterTopologyLatestVersionKey c
  | .nodeKey c n => makeNodeKey c n

/-- The numeric arguments are in the range of their Go types (`uint32` for
cluster, schema and shard ids, `uint64` for table ids). -/
def KeyCall.inRange : KeyCall → Prop
  | .clusterKey c => c < 2 ^ 32
  | .schemaKey c s => c < 2 ^ 32 ∧ s < 2 ^ 32
  | .tableKey c s t => c < 2 ^ 32 ∧ s < 2 ^ 32 ∧ t < 2 ^ 64
  | .nameToIDKey c s _ => c < 2 ^ 32 ∧ s < 2 ^ 32
  | .shardTopologyKey c s _ => c < 2 ^ 32 ∧ s < 2 ^ 32
  | .shardLatestVersionKey c s => c < 2 ^ 32 ∧ s < 2 ^ 32
  | .clusterTopologyKey c _ => c < 2 ^ 32
  | .clusterTopologyLatestVersionKey c => c < 2 ^ 32
  | .nodeKey c _ => c < 2 ^ 32

instance (a : KeyCall) : Decidable a.inRange := by
  cases a <;> unfold KeyCall.inRange <;> infer_instance

/-- The string arguments are single clean path elements; a table name is not
the rendering of a table id and a version string is not the constant
`latestVersion`. -/
def KeyCall.cleanArgs : KeyCall → Prop
  | .nameToIDKey _ _ n => gopath.plain n ∧ ∀ t, t < 2 ^ 64 → n ≠ fmtID t
  | .shardTopologyKey _ _ v => gopath.plain v ∧ v ≠ latestVersion
  | .clusterTopologyKey _ v => gopath.plain v ∧ v ≠ latestVersion
  | .nodeKey _ n => gopath.plain n
  | _ => True

/-- The path elements a call passes to `path.Join` after `version`. -/
def KeyCall.segs : KeyCall → List Str
  | .clusterKey c => [cluster, info, fmtID c]
  | .schemaKey c s => [cluster, fmtID c, schema, info, fmtID s]
  | .tableKey c s t => [cluster, fmtID c, schema, fmtID s, table, fmtID t]
  | .nameToIDKey c s n => [cluster, fmtID c, schema, fmtID s, table, n]
  | .shardTopologyKey c s v => [cluster, fmtID c, shard, fmtID s, v]
  | .shardLatestVersionKey c s => [cluster, fmtID c, shard, fmtID s, latestVersion]
  | .clusterTopologyKey c v => [cluster, fmtID c, topology, v]
  | .clusterTopologyLatestVersionKey c => [cluster, fmtID c, topology, latestVersion]
  | .nodeKey c n => [cluster, fmtID c, node, n]

end storage

/-! ## `package cluster`: the Manager exercised by manager_test.go

The implementation of `Manager` is not part of the sources at hand; only its
test is. The state and the operations below are modelled from the
specification (sections 3, 4.3 and 4.4). Operations are atomic state
transitions: the specification serialises the mutations of one cluster. -/

namespace cluster

/-- Modelled from the spec: the Manager state machine of section 4.4,
`Stopped → Starting → Running → Stopping → Stopped` (the implementation of
`Manager` is missing). -/
inductive Status where
  | Stopped | Starting | Running | Stopping
  deriving DecidableEq

/-- Modelled from the spec: the error taxonomy of section 7 as far as the
modelled operations return it (the error values of the implementation are
missing). -/
inductive Error where
  | InvalidArgument | AlreadyExists | ClusterNotFound | SchemaNotFound | TableNotFound
  | NodeNotFound | NotStarted
  deriving DecidableEq

/-- Modelled from the spec: a durable id allocator of section 4.3 (the
allocator implementation is missing). `next` is the in-memory high-water mark,
the next id to hand out; `highWater` is the durable high-water mark, so the
in-memory pool is the ids from `next` up to `highWater`. -/
structure IDAllocator where
  next : Nat
  highWater : Nat
  deriving DecidableEq

/-- Modelled from the spec: "atomically claim the next id from an in-memory
high-water mark; if the in-memory pool is exhausted, refill it by advancing a
durable high-water-mark key in the store by a fixed step" (section 4.3; the
allocator implementation is missing). -/
def IDAllocator.claim (a : IDAllocator) (step : Nat) : Nat × IDAllocator :=
  let highWater := if a.next < a.highWater then a.highWater else a.highWater + step
  (a.next, { next := a.next + 1, highWater := highWater })

/-- Modelled from the spec: the Table record of section 3 with its placement
(the record type of the implementation is missing). `shardID` is the shard the
table was placed on, absent when the preferred node owns no shard. -/
structure Table where
  id : Nat
  name : Str
  schemaID : Nat
  shardID : Option Nat
  deriving DecidableEq

/-- Modelled from the spec: the Schema record of section 3 (the record type of
the implementation is missing). `tables` holds the records of the active
tables in allocation order and serves as the name→id index of the schema;
`tableAlloc` is the table-id allocator of this `(cluster, schema)`, whose ids
are "dense, monotonic from 0, unique per (cluster, schema)". -/
structure Schema where
  id : Nat
  name : Str
  tables : List Table
  tableAlloc : IDAllocator
  deriving DecidableEq

/-- Modelled from the spec: the Node record of section 3 (the record type of
the implementation is missing); `shards` are the shards the node leads. -/
structure Node where
  endpoint : Str
  lease : Nat
  shards : List Nat
  deriving DecidableEq

/-- Modelled from the spec: the Cluster record of section 3 with its in-memory
index of nodes and schemas (the record type of the implementation is
missing). `schemas` serves as the name→id index of the cluster. -/
structure Cluster where
  id : Nat
  name : Str
  nodeCount : Nat
  replicationFactor : Nat
  shardTotal : Nat
  nodes : List Node
  schemas : List Schema
  schemaAlloc : IDAllocator
  deriving DecidableEq

/-- Modelled from the spec: the state of a Manager instance (the
implementation of `Manager` is missing). `idAllocatorStep` is the id-allocator step
passed to `NewManagerImpl`. -/
structure Manager where
  status : Status
  idAllocatorStep : Nat
  clusters : List Cluster
  deriving DecidableEq

/-- Modelled from the spec: the update of the in-memory index "after each
committed write" (section 5; the implementation of `Manager` is missing):
replace the record of the cluster named `name` by `c`. -/
def updateCluster (cs : List Cluster) (name : Str) (c : Cluster) : List Cluster :=
  cs.map (fun x => if x.name = name then c else x)

/-- Modelled from the spec: the update of the in-memory index (section 5; the
implementation of `Manager` is missing): replace the record of the schema named
`name` by `s`. -/
def updateSchema (ss : List Schema) (name : Str) (s : Schema) : List Schema :=
  ss.map (fun x => if x.name = name then s else x)

/-- Modelled from the spec: the update of the in-memory index (section 5; the
implementation of `Manager` is missing): replace the record of the node with
endpoint `endpoint` by `n`. -/
def updateNode (ns : List Node) (endpoint : Str) (n : Node) : List Node :=
  ns.map (fun x => if x.endpoint = endpoint then n else x)

/-- Modelled from the spec: `CreateCluster` of section 4.4 (the implementation
of `Manager` is missing): "new Cluster", `InvalidArgument` if any count ≤ 0,
`AlreadyExists` if the name is taken. The cluster id is the number of clusters
created before. -/
def CreateCluster (m : Manager) (name : Str) (nodeCount replicationFactor shardTotal : Nat) :
    Except Error (Cluster × Manager) :=
  if m.status ≠ Status.Running then .error .NotStarted
  else if nodeCount = 0 ∨ replicationFactor = 0 ∨ shardTotal = 0 then .error .InvalidArgument
  else
    match m.clusters.find? (fun c => c.name = name) with
    | some _ => .error .AlreadyExists
    | none =>
      let c : Cluster :=
        { id := m.clusters.length, name := name, nodeCount := nodeCount,
          replicationFactor := replicationFactor, shardTotal := shardTotal,
          nodes := [], schemas := [], schemaAlloc := { next := 0, highWater := 0 } }
      .ok (c, { m with clusters := m.clusters ++ [c] })

/-- Modelled from the spec: the shards a node leads, by its registration index
`i` (section 4.4, `RegisterNode`: "a contiguous, deterministic partition of
shards sized `shardTotal / nodeCount` (remainder distributed to
earliest-registered nodes)"; the implementation is missing). -/
def partition (shardTotal nodeCount i : Nat) : List Nat :=
  if nodeCount ≤ i then []
  else
    let q := shardTotal / nodeCount
    let r := shardTotal % nodeCount
    List.range' (i * q + min i r) (q + if i < r then 1 else 0)

/-- Modelled from the spec: `RegisterNode` of section 4.4 (the implementation
of `Manager` is missing): upserts the node; the first registration assigns the
node its shards, a re-registration refreshes the lease only. -/
def RegisterNode (m : Manager) (clusterName endpoint : Str) (lease : Nat) :
    Except Error Manager :=
  if m.status ≠ Status.Running then .error .NotStarted
  else
    match m.clusters.find? (fun c => c.name = clusterName) with
    | none => .error .ClusterNotFound
    | some c =>
      match c.nodes.find? (fun n => n.endpoint = endpoint) with
      | some n =>
        let c1 := { c with nodes := updateNode c.nodes endpoint { n with lease := lease } }
        .ok { m with clusters := updateCluster m.clusters clusterName c1 }
      | none =>
        let n : Node :=
          { endpoint := endpoint, lease := lease,
            shards := partition c.shardTotal c.nodeCount c.nodes.length }
        let c1 := { c with nodes := c.nodes ++ [n] }
        .ok { m with clusters := updateCluster m.clusters clusterName c1 }

/-- Modelled from the spec: `AllocSchemaID` of section 4.4 with the
get-or-create allocation of section 4.3 (the implementation of `Manager` is
missing): a name that has an id keeps it, without any write; otherwise the next
id is claimed and the name→id mapping and the record are stored. -/
def AllocSchemaID (m : Manager) (clusterName schemaName : Str) : Except Error (Nat × Manager) :=
  if m.status ≠ Status.Running then .error .NotStarted
  else
    match m.clusters.find? (fun c => c.name = clusterName) with
    | none => .error .ClusterNotFound
    | some c =>
      match c.schemas.find? (fun s => s.name = schemaName) with
      | some s => .ok (s.id, m)
      | none =>
        let r := c.schemaAlloc.claim m.idAllocatorStep
        let s : Schema :=
          { id := r.1, name := schemaName, tables := [],
            tableAlloc := { next := 0, highWater := 0 } }
        let c1 := { c with schemas := c.schemas ++ [s], schemaAlloc := r.2 }
        .ok (r.1, { m with clusters := updateCluster m.clusters clusterName c1 })

/-- Modelled from the spec: `AllocTableID` of section 4.4 with the
get-or-create allocation of section 4.3 (the implementation of `Manager` is
missing). An existing name returns its table unchanged; a new name claims the
next table id of the schema and places the table on one of the preferred
node's shards, chosen by a deterministic function of `(schemaID, tableName)`
modulo the number of shards the node owns. That function is left open by the
specification and is the parameter `place`. -/
def AllocTableID (place : Nat → Str → Nat) (m : Manager)
    (clusterName schemaName tableName nodeName : Str) : Except Error (Table × Manager) :=
  if m.status ≠ Status.Running then .error .NotStarted
  else
    match m.clusters.find? (fun c => c.name = clusterName) with
    | none => .error .ClusterNotFound
    | some c =>
      match c.schemas.find? (fun s => s.name = schemaName) with
      | none => .error .SchemaNotFound
      | some s =>
        match c.nodes.find? (fun n => n.endpoint = nodeName) with
        | none => .error .NodeNotFound
        | some n =>
          match s.tables.find? (fun t => t.name = tableName) with
          | some t => .ok (t, m)
          | none =>
            let r := s.tableAlloc.claim m.idAllocatorStep
            let t : Table :=
              { id := r.1, name := tableName, schemaID := s.id,
                shardID := n.shards[place s.id tableName % n.shards.length]? }
            let s1 := { s with tables := s.tables ++ [t], tableAlloc := r.2 }
            let c1 := { c with schemas := updateSchema c.schemas schemaName s1 }
            .ok (t, { m with clusters := updateCluster m.clusters clusterName c1 })

/-- Modelled from the spec: `DropTable` of section 4.4 (the implementation of
`Manager` is missing): "removes table from its shard's active set; id
permanently retired", `TableNotFound` "if id/name mismatch or already
dropped". The allocator is left as it is. -/
def DropTable (m : Manager) (clusterName schemaName tableName : Str) (tableID : Nat) :
    Except Error Manager :=
  if m.status ≠ Status.Running then .error .NotStarted
  else
    match m.clusters.find? (fun c => c.name = clusterName) with
    | none => .error .ClusterNotFound
    | some c =>
      match c.schemas.find? (fun s => s.name = schemaName) with
      | none => .error .TableNotFound
      | some s =>
        match s.tables.find? (fun t => t.name = tableName) with
        | none => .error .TableNotFound
        | some t =>
          if t.id ≠ tableID then .error .TableNotFound
          else
            let s1 := { s with tables := s.tables.filter (fun x => x.name ≠ tableName) }
            let c1 := { c with schemas := updateSchema c.schemas schemaName s1 }
            .ok { m with clusters := updateCluster m.clusters clusterName c1 }


/-- Modelled from the spec: one call of a mutating operation of the Manager API
of section 4.4, with its arguments (the implementation of `Manager` is
missing). -/
inductive Op where
  | createCluster (name : Str) (nodeCount replicationFactor shardTotal : Nat)
  | registerNode (clusterName endpoint : Str) (lease : Nat)
  | allocSchemaID (clusterName schemaName : Str)
  | allocTableID (clusterName schemaName tableName nodeName : Str)
  | dropTable (clusterName schemaName tableName : Str) (tableID : Nat)
  deriving DecidableEq

/-- Modelled from the spec: the cluster a call of the Manager API names (the
implementation of `Manager` is missing). -/
def Op.clusterName : Op → Str
  | .createCluster name _ _ _ => name
  | .registerNode clusterName _ _ => clusterName
  | .allocSchemaID clusterName _ => clusterName
  | .allocTableID clusterName _ _ _ => clusterName
  | .dropTable clusterName _ _ _ => clusterName

/-- Modelled from the spec: the Manager state after a call (the implementation
of `Manager` is missing). "Every operation returns either a success result or
one typed error; no silent partial success" (section 7), so a call that returns
an error leaves the state as it was. -/
def Manager.apply (place : Nat → Str → Nat) (m : Manager) : Op → Manager
  | .createCluster name nodeCount replicationFactor shardTotal =>
    match CreateCluster m name nodeCount replicationFactor shardTotal with
    | .ok r => r.2
    | .error _ => m
  | .registerNode clusterName endpoint lease =>
    match RegisterNode m clusterName endpoint lease with
    | .ok r => r
    | .error _ => m
  | .allocSchemaID clusterName schemaName =>
    match AllocSchemaID m clusterName schemaName with
    | .ok r => r.2
    | .error _ => m
  | .allocTableID clusterName schemaName tableName nodeName =>
    match AllocTableID place m clusterName schemaName tableName nodeName with
    | .ok r => r.2
    | .error _ => m
  | .dropTable clusterName schemaName tableName tableID =>
    match DropTable m clusterName schemaName tableName tableID with
    | .ok r => r
    | .error _ => m

/-- Modelled from the spec: the Manager state after a sequence of calls, one
after another (the implementation of `Manager` is missing; the mutations of one
cluster are serialised, section 5). -/
def Manager.run (place : Nat → Str → Nat) (m : Manager) (ops : List Op) : Manager :=
  ops.foldl (Manager.apply place) m

/-- Modelled from the spec: no schema id has been allocated yet in the cluster
named `clusterName` of a running Manager (the implementation of `Manager` is
missing): the cluster exists, has no schema and its schema-id allocator has
handed out nothing. -/
def Manager.noSchemaYet (m : Manager) (clusterName : Str) : Prop :=
  m.status = Status.Running ∧
    ∃ c, m.clusters.find? (fun x => x.name = clusterName) = some c ∧
      c.schemas = [] ∧ c.schemaAlloc.next = 0

/-- Modelled from the spec: successive `AllocTableID` calls in one schema, one
for each request (table name, preferred node), in order (the implementation of
`Manager` is missing). The result lists what each call returns: the id of the
table or the error. A call that returns an error leaves the state as it was. -/
def allocTableIDs (place : Nat → Str → Nat) (m : Manager) (clusterName schemaName : Str) :
    List (Str × Str) → List (Except Error Nat)
  | [] => []
  | req :: rest =>
    match AllocTableID place m clusterName schemaName req.1 req.2 with
    | .ok r => .ok r.1.id :: allocTableIDs place r.2 clusterName schemaName rest
    | .error e => .error e :: allocTableIDs place m clusterName schemaName rest

/-- Modelled from the spec: the ids of the active tables of a schema are
issued ids, that is below the in-memory high-water mark of the table-id
allocator, and pairwise distinct ("identifiers, once issued, are never
reassigned to a different entity", section 3; the implementation of `Manager`
is missing). -/
def Schema.idsIssued (s : Schema) : Prop :=
  (∀ t ∈ s.tables, t.id < s.tableAlloc.next) ∧ (s.tables.map Table.id).Nodup

/-- Modelled from the spec: every schema of every cluster of the Manager
satisfies `Schema.idsIssued` (the implementation of `Manager` is missing). -/
def Manager.idsIssued (m : Manager) : Prop :=
  ∀ c ∈ m.clusters, ∀ s ∈ c.schemas, s.idsIssued

/-- Modelled from the spec: table id `i` is retired in a schema: it has been
issued and no active table carries it (section 4.4, `DropTable`: "id
permanently retired"; the implementation of `Manager` is missing). -/
def Schema.retired (i : Nat) (s : Schema) : Prop :=
  i < s.tableAlloc.next ∧ ∀ t ∈ s.tables, t.id ≠ i

/-- Modelled from the spec: table id `i` is retired in the schema `schemaName`
of the cluster `clusterName` of a running Manager (the implementation of
`Manager` is missing). -/
def Manager.retired (m : Manager) (clusterName schemaName : Str) (i : Nat) : Prop :=
  m.status = Status.Running ∧
    ∃ c, m.clusters.find? (fun x => x.name = clusterName) = some c ∧
      ∃ s, c.schemas.find? (fun x => x.name = schemaName) = some s ∧ s.retired i

/-! Constants of manager_test.go. -/

def cluster1 : Str := ascii "ceresdbCluster1"
def defaultSchema : Str := ascii "ceresdbSchema"
def defaultNodeCount : Nat := 2
def defaultReplicationFactor : Nat := 1
def defaultShardTotal : Nat := 8
def defaultLease : Nat := 100
def node1 : Str := ascii "127.0.0.1:8081"
def node2 : Str := ascii "127.0.0.2:8081"
def table1 : Str := ascii "table1"
def table2 : Str := ascii "table2"
def table3 : Str := ascii "table3"
def table4 : Str := ascii "table4"
def defaultIDAllocatorStep : Nat := 20

/-- Modelled from the spec: the Manager that `newTestClusterManager` returns, a
started Manager over an empty store (the implementation of `NewManagerImpl`
and `Start` is missing). -/
def newTestClusterManager : Manager :=
  { status := Status.Running, idAllocatorStep := defaultIDAllocatorStep, clusters := [] }

end cluster

/-! # Theorems -/

namespace gofmt

theorem fmtDecimal_fuel (f1 : Nat) : ∀ (f2 u : Nat) (acc : Str), u ≤ f1 → u ≤ f2 →
    fmtDecimal f1 u acc = fmtDecimal f2 u acc := by
  induction f1 with
  | zero =>
    intro f2 u acc h1 _
    have hu : u = 0 := by omega
    subst hu
    cases f2 <;> simp [fmtDecimal]
  | succ f1 ih =>
    intro f2 u acc h1 h2
    cases f2 with
    | zero =>
      have hu : u = 0 := by omega
      subst hu
      simp [fmtDecimal]
    | succ f2 =>
      simp only [fmtDecimal]
      split
      · apply ih <;> omega
      · rfl

theorem fmtDecimal_acc (f : Nat) : ∀ (u : Nat) (acc : Str),
    fmtDecimal f u acc = fmtDecimal f u [] ++ acc := by
  induction f with
  | zero => intro u acc; simp [fmtDecimal]
  | succ f ih =>
    intro u acc
    simp only [fmtDecimal]
    split
    · rw [ih _ (_ :: acc), ih _ [_]]; simp
    · simp

theorem decimal_of_lt {u : Nat} (h : u < 10) : decimal u = [48 + u] := by
  unfold decimal
  cases u with
  | zero => rfl
  | succ n => simp only [fmtDecimal]; rw [if_neg (by omega)]

theorem decimal_of_ge {u : Nat} (h : 10 ≤ u) :
    decimal u = decimal (u / 10) ++ [48 + u % 10] := by
  unfold decimal
  cases u with
  | zero => omega
  | succ n =>
    simp only [fmtDecimal]
    rw [if_pos h, fmtDecimal_acc, fmtDecimal_fuel n ((n + 1) / 10) _ [] (by omega) (le_refl _)]
    congr 2
    omega

theorem fixed_length (k : Nat) : ∀ n, (fixed k n).length = k := by
  induction k with
  | zero => intro n; rfl
  | succ k ih => intro n; simp [fixed, ih]

theorem fixed_zero (k : Nat) : fixed k 0 = List.replicate k 48 := by
  induction k with
  | zero => rfl
  | succ k ih => simp [fixed, ih, List.replicate_succ']

theorem fixed_digit (k : Nat) : ∀ n ch, ch ∈ fixed k n → 48 ≤ ch ∧ ch ≤ 57 := by
  induction k with
  | zero => intro n ch h; simp [fixed] at h
  | succ k ih =>
    intro n ch h
    simp only [fixed, List.mem_append, List.mem_singleton] at h
    rcases h with h | h
    · exact ih _ _ h
    · subst h; omega

theorem zeroPad_snoc (k : Nat) (x : Str) (d : Nat) :
    zeroPad (k + 1) (x ++ [d]) = zeroPad k x ++ [d] := by
  simp [zeroPad]

theorem zeroPad_decimal (k : Nat) : ∀ u, u < 10 ^ (k + 1) →
    zeroPad (k + 1) (decimal u) = fixed (k + 1) u := by
  induction k with
  | zero =>
    intro u hu
    have hu' : u < 10 := by simpa using hu
    rw [decimal_of_lt hu']
    simp [zeroPad, fixed, Nat.mod_eq_of_lt hu']
  | succ k ih =>
    intro u hu
    by_cases h : u < 10
    · rw [decimal_of_lt h]
      have h0 : u / 10 = 0 := by omega
      rw [fixed, h0, fixed_zero, Nat.mod_eq_of_lt h]
      simp [zeroPad]
    · rw [decimal_of_ge (by omega), zeroPad_snoc, ih (u / 10) (by rw [pow_succ] at hu; omega)]
      rfl

theorem decode_fixed (k : Nat) : ∀ n, decode (fixed k n) = n % 10 ^ k := by
  induction k with
  | zero => intro n; simp [fixed, decode, Nat.mod_one]
  | succ k ih =>
    intro n
    have := ih (n / 10)
    simp only [decode] at this
    simp only [fixed, decode, List.foldl_append, List.foldl_cons, List.foldl_nil, this]
    rw [pow_succ, Nat.add_sub_cancel_left]
    have h1 := Nat.mod_mul_right_div_self n 10 (10 ^ k)
    have h2 : n % (10 * 10 ^ k) % 10 = n % 10 := Nat.mod_mul_right_mod n 10 (10 ^ k)
    rw [mul_comm (10 ^ k) 10]
    omega


theorem lex_append_of_lex (x : Str) : ∀ (y u v : Str), List.Lex (· < ·) x y →
    x.length = y.length → List.Lex (· < ·) (x ++ u) (y ++ v) := by
  induction x with
  | nil =>
    intro y u v h hl
    cases y with
    | nil => cases h
    | cons b y => simp at hl
  | cons a x ih =>
    intro y u v h hl
    cases y with
    | nil => simp at hl
    | cons b y =>
      cases h with
      | rel hab => exact List.Lex.rel hab
      | cons h3 => exact List.Lex.cons (ih y u v h3 (by simpa using hl))

theorem lex_append_left (p : Str) {u v : Str} (h : List.Lex (· < ·) u v) :
    List.Lex (· < ·) (p ++ u) (p ++ v) := by
  induction p with
  | nil => exact h
  | cons a p ih => exact List.Lex.cons ih

theorem fixed_lt (k : Nat) : ∀ a b, a < b → b < 10 ^ k →
    List.Lex (· < ·) (fixed k a) (fixed k b) := by
  induction k with
  | zero => intro a b hab hb; simp at hb; omega
  | succ k ih =>
    intro a b hab hb
    simp only [fixed]
    rw [pow_succ] at hb
    by_cases hq : a / 10 = b / 10
    · rw [hq]
      apply lex_append_left
      exact List.Lex.rel (by omega)
    · apply lex_append_of_lex
      · exact ih _ _ (by omega) (by omega)
      · simp [fixed_length]

theorem digitChar_toNat {d : Nat} (h : d < 10) : (Nat.digitChar d).toNat = 48 + d := by
  interval_cases d <;> rfl

theorem toDigitsCore_eq (f1 : Nat) : ∀ (f2 n : Nat) (ds : List Char), n < f1 → n ≤ f2 →
    (Nat.toDigitsCore 10 f1 n ds).map Char.toNat = fmtDecimal f2 n (ds.map Char.toNat) := by
  induction f1 with
  | zero => intro f2 n ds h; omega
  | succ f1 ih =>
    intro f2 n ds h1 h2
    simp only [Nat.toDigitsCore]
    by_cases hn : n < 10
    · have h0 : n / 10 = 0 := by omega
      have hd := decimal_of_lt hn
      unfold decimal at hd
      rw [if_pos h0, fmtDecimal_acc, fmtDecimal_fuel f2 n n [] h2 (le_refl _), hd,
        Nat.mod_eq_of_lt hn]
      simp [digitChar_toNat hn]
    · have h0 : ¬ n / 10 = 0 := by omega
      rw [if_neg h0, ih (n / 10) (n / 10) _ (by omega) (le_refl _)]
      cases f2 with
      | zero => omega
      | succ f2 =>
        simp only [fmtDecimal]
        rw [if_pos (by omega), fmtDecimal_fuel f2 (n / 10) _ _ (by omega) (le_refl _)]
        simp only [List.map_cons]
        rw [digitChar_toNat (Nat.mod_lt _ (by decide))]
        congr 2
        omega

theorem toDigits_eq (n : Nat) : (Nat.toDigits 10 n).map Char.toNat = decimal n := by
  unfold Nat.toDigits decimal
  simpa using toDigitsCore_eq (n + 1) n n [] (Nat.lt_succ_self n) (le_refl n)

end gofmt

namespace gopath

theorem copyElem_append (s : Str) : ∀ (ss : List Str) (out : Str), slash ∉ s →
    copyElem (s ++ slashed ss) out = (slashed ss, out ++ s) := by
  induction s with
  | nil =>
    intro ss out _
    cases ss with
    | nil => simp [slashed, copyElem]
    | cons t ss => simp [slashed, copyElem]
  | cons c s ih =>
    intro ss out h
    simp only [List.mem_cons, not_or] at h
    rw [List.cons_append, copyElem, if_neg (fun e => h.1 e.symm), ih ss _ h.2]
    simp

theorem copyElem_length (rest : Str) : ∀ out : Str,
    (copyElem rest out).1.length ≤ rest.length := by
  induction rest with
  | nil => intro out; simp [copyElem]
  | cons c t ih =>
    intro out
    rw [copyElem]
    split
    · exact le_refl _
    · exact le_trans (ih _) (Nat.le_succ _)

/-- The iteration bound of `cleanLoop` never cuts the loop short: any two
bounds that are at least the length of the unread input give the same result. -/
theorem cleanLoop_fuel (rooted : Bool) (f1 : Nat) : ∀ (f2 : Nat) (rest out : Str) (dotdot : Nat),
    rest.length ≤ f1 → rest.length ≤ f2 →
    cleanLoop rooted f1 rest out dotdot = cleanLoop rooted f2 rest out dotdot := by
  induction f1 with
  | zero =>
    intro f2 rest out dotdot h1 _
    have hr : rest = [] := List.length_eq_zero.mp (Nat.le_zero.mp h1)
    subst hr
    cases f2 <;> simp [cleanLoop]
  | succ f1 ih =>
    intro f2 rest out dotdot h1 h2
    cases rest with
    | nil => cases f2 <;> simp [cleanLoop]
    | cons c t =>
      cases f2 with
      | zero => simp at h2
      | succ f2 =>
        simp only [List.length_cons, Nat.add_le_add_iff_right] at h1 h2
        have htail : t.tail.length ≤ t.length := by simp
        have hlen : c ≠ slash → ∀ o, (copyElem (c :: t) o).1.length ≤ t.length := by
          intro hc o
          rw [copyElem, if_neg hc]
          exact copyElem_length t _
        rw [cleanLoop, cleanLoop]
        split_ifs with hc
        all_goals
          first
          | exact ih _ _ _ _ h1 h2
          | exact ih _ _ _ _ (le_trans htail h1) (le_trans htail h2)
          | exact ih _ _ _ _ (le_trans (hlen hc _) h1) (le_trans (hlen hc _) h2)

theorem slashed_head (ss : List Str) : slashed ss = [] ∨ (slashed ss).head? = some slash := by
  cases ss <;> simp [slashed]

theorem cleanLoop_elem (s : Str) (hs : plain s) (ss : List Str) (fuel : Nat) (out : Str)
    (dotdot : Nat) :
    cleanLoop false (fuel + 1) (s ++ slashed ss) out dotdot =
      cleanLoop false fuel (slashed ss)
        ((if out.length ≠ 0 then out ++ [slash] else out) ++ s) dotdot := by
  obtain ⟨h1, h2, h3, h4⟩ := hs
  cases s with
  | nil => exact absurd rfl h1
  | cons c t =>
    simp only [List.mem_cons, not_or] at h2
    have hc : c ≠ slash := fun e => h2.1 e.symm
    have hcase2 : ¬ (c = dot ∧ (t ++ slashed ss = [] ∨ (t ++ slashed ss).head? = some slash)) := by
      rintro ⟨hd, h | h⟩
      · simp only [List.append_eq_nil] at h
        exact h3 (by rw [hd, h.1])
      · cases t with
        | nil => exact h3 (by rw [hd])
        | cons d t' =>
          simp only [List.cons_append, List.head?_cons, Option.some.injEq] at h
          exact h2.2 (by simp [h])
    have hcase3 : ¬ (c = dot ∧ (t ++ slashed ss).head? = some dot ∧
        ((t ++ slashed ss).tail = [] ∨ (t ++ slashed ss).tail.head? = some slash)) := by
      rintro ⟨hd, he, h⟩
      cases t with
      | nil =>
        rcases slashed_head ss with h0 | h0
        · simp [h0] at he
        · simp only [List.nil_append, h0, Option.some.injEq] at he
          exact absurd he (by decide)
      | cons d t' =>
        simp only [List.cons_append, List.head?_cons, Option.some.injEq] at he
        simp only [List.cons_append, List.tail_cons] at h
        rcases h with h | h
        · simp only [List.append_eq_nil] at h
          exact h4 (by rw [hd, he, h.1])
        · cases t' with
          | nil => exact h4 (by rw [hd, he])
          | cons e t'' =>
            simp only [List.cons_append, List.head?_cons, Option.some.injEq] at h
            exact h2.2 (by simp [h])
    rw [List.cons_append, cleanLoop, if_neg hc, if_neg hcase2, if_neg hcase3]
    have hcp : ∀ o, copyElem (c :: (t ++ slashed ss)) o = (slashed ss, o ++ c :: t) := by
      intro o
      have := copyElem_append (c :: t) ss o (by simp only [List.mem_cons, not_or]; exact h2)
      rwa [List.cons_append] at this
    simp only [hcp]
    simp

theorem cleanLoop_slashed (ss : List Str) : ∀ (fuel : Nat) (out : Str) (dotdot : Nat),
    (∀ s ∈ ss, plain s) → out ≠ [] → (slashed ss).length ≤ fuel →
    cleanLoop false fuel (slashed ss) out dotdot = out ++ slashed ss := by
  induction ss with
  | nil =>
    intro fuel out dotdot _ _ _
    cases fuel <;> simp [slashed, cleanLoop]
  | cons s ss ih =>
    intro fuel out dotdot hp ho hf
    have hs : plain s := hp s (List.mem_cons_self _ _)
    have hne : s ≠ [] := hs.1
    have hlen : 0 < s.length := List.length_pos.mpr hne
    simp only [slashed, List.length_cons, List.length_append] at hf
    obtain ⟨f1, rfl⟩ : ∃ f1, fuel = f1 + 1 := ⟨fuel - 1, by omega⟩
    obtain ⟨f2, rfl⟩ : ∃ f2, f1 = f2 + 1 := ⟨f1 - 1, by omega⟩
    have hstep : cleanLoop false (f2 + 1 + 1) (slash :: (s ++ slashed ss)) out dotdot =
        cleanLoop false (f2 + 1) (s ++ slashed ss) out dotdot := by
      simp [cleanLoop]
    rw [slashed, hstep, cleanLoop_elem s hs, ih f2 _ dotdot
      (fun t ht => hp t (List.mem_cons_of_mem _ ht))
      (fun h => hne (List.append_eq_nil.mp h).2) (by omega)]
    have hol : out.length ≠ 0 := by
      intro h; exact ho (List.length_eq_zero.mp h)
    simp [hol]

theorem Clean_plain (s : Str) (ss : List Str) (hs : plain s) (hss : ∀ t ∈ ss, plain t) :
    Clean (s ++ slashed ss) = s ++ slashed ss := by
  have hne : s ≠ [] := hs.1
  obtain ⟨c, t, rfl⟩ : ∃ c t, s = c :: t := by
    cases s with
    | nil => exact absurd rfl hne
    | cons c t => exact ⟨c, t, rfl⟩
  have hc : c ≠ slash := by
    intro e
    exact hs.2.1 (by simp [e])
  unfold Clean
  rw [if_neg (by simp)]
  have hr : (decide ((c :: t ++ slashed ss).head? = some slash)) = false := by
    simp [hc]
  simp only [hr]
  have h1 := cleanLoop_elem (c :: t) hs ss ((t ++ slashed ss).length) [] 0
  simp only [List.cons_append, List.length_cons] at h1 ⊢
  rw [h1]
  rw [cleanLoop_slashed ss _ _ 0 hss (by simp) (by simp)]
  simp

theorem foldl_joinStep (ss : List Str) : ∀ (buf : Str), buf ≠ [] →
    ss.foldl joinStep buf = buf ++ slashed ss := by
  induction ss with
  | nil => intro buf _; simp [slashed]
  | cons s ss ih =>
    intro buf hb
    have hl : 0 < buf.length := List.length_pos.mpr hb
    simp only [List.foldl_cons, joinStep]
    rw [if_pos (Or.inl hl), if_pos hl, ih _ (by simp)]
    simp [slashed]

theorem Join_plain (s : Str) (ss : List Str) (hs : plain s) (hss : ∀ t ∈ ss, plain t) :
    Join (s :: ss) = s ++ slashed ss := by
  have hne : s ≠ [] := hs.1
  have hl : 0 < s.length := List.length_pos.mpr hne
  unfold Join
  rw [if_neg (by simp only [List.map_cons, List.sum_cons]; omega)]
  have h1 : joinStep [] s = s := by simp [joinStep, hne]
  rw [List.foldl_cons, h1, foldl_joinStep ss s hne, Clean_plain s ss hs hss]

theorem copyElem_append_rest (s : Str) : ∀ (r out : Str), slash ∉ s →
    (r = [] ∨ r.head? = some slash) → copyElem (s ++ r) out = (r, out ++ s) := by
  induction s with
  | nil =>
    intro r out _ hr
    cases r with
    | nil => simp [copyElem]
    | cons d r =>
      rcases hr with hr | hr
      · cases hr
      · simp only [List.head?_cons, Option.some.injEq] at hr
        simp [copyElem, hr]
  | cons c s ih =>
    intro r out h hr
    simp only [List.mem_cons, not_or] at h
    rw [List.cons_append, copyElem, if_neg (fun e => h.1 e.symm), ih r _ h.2 hr]
    simp

theorem cleanLoop_elem_rest (s : Str) (hs : plain s) (r : Str)
    (hr : r = [] ∨ r.head? = some slash) (fuel : Nat) (out : Str) (dotdot : Nat) :
    cleanLoop false (fuel + 1) (s ++ r) out dotdot =
      cleanLoop false fuel r ((if out.length ≠ 0 then out ++ [slash] else out) ++ s) dotdot := by
  obtain ⟨h1, h2, h3, h4⟩ := hs
  cases s with
  | nil => exact absurd rfl h1
  | cons c t =>
    simp only [List.mem_cons, not_or] at h2
    have hc : c ≠ slash := fun e => h2.1 e.symm
    have hcase2 : ¬ (c = dot ∧ (t ++ r = [] ∨ (t ++ r).head? = some slash)) := by
      rintro ⟨hd, h | h⟩
      · simp only [List.append_eq_nil] at h
        exact h3 (by rw [hd, h.1])
      · cases t with
        | nil => exact h3 (by rw [hd])
        | cons d t' =>
          simp only [List.cons_append, List.head?_cons, Option.some.injEq] at h
          exact h2.2 (by simp [h])
    have hcase3 : ¬ (c = dot ∧ (t ++ r).head? = some dot ∧
        ((t ++ r).tail = [] ∨ (t ++ r).tail.head? = some slash)) := by
      rintro ⟨hd, he, h⟩
      cases t with
      | nil =>
        rcases hr with h0 | h0
        · simp [h0] at he
        · simp only [List.nil_append, h0, Option.some.injEq] at he
          exact absurd he (by decide)
      | cons d t' =>
        simp only [List.cons_append, List.head?_cons, Option.some.injEq] at he
        simp only [List.cons_append, List.tail_cons] at h
        rcases h with h | h
        · simp only [List.append_eq_nil] at h
          exact h4 (by rw [hd, he, h.1])
        · cases t' with
          | nil => exact h4 (by rw [hd, he])
          | cons e t'' =>
            simp only [List.cons_append, List.head?_cons, Option.some.injEq] at h
            exact h2.2 (by simp [h])
    rw [List.cons_append, cleanLoop, if_neg hc, if_neg hcase2, if_neg hcase3]
    have hcp : ∀ o, copyElem (c :: (t ++ r)) o = (r, o ++ c :: t) := by
      intro o
      have := copyElem_append_rest (c :: t) r o
        (by simp only [List.mem_cons, not_or]; exact h2) hr
      rwa [List.cons_append] at this
    simp only [hcp]
    simp

theorem cleanLoop_slash (rooted : Bool) (r : Str) (fuel : Nat) (out : Str) (dotdot : Nat) :
    cleanLoop rooted (fuel + 1) (slash :: r) out dotdot = cleanLoop rooted fuel r out dotdot := by
  rw [cleanLoop, if_pos rfl]

theorem slashed_append_head (ss : List Str) (r : Str) (hr : r = [] ∨ r.head? = some slash) :
    slashed ss ++ r = [] ∨ (slashed ss ++ r).head? = some slash := by
  cases ss with
  | nil => simpa [slashed] using hr
  | cons s ss => right; simp [slashed]

theorem cleanLoop_slashed_rest (ss : List Str) : ∀ (r : Str) (fuel : Nat) (out : Str)
    (dotdot : Nat), (∀ s ∈ ss, plain s) → (r = [] ∨ r.head? = some slash) → out ≠ [] →
    (slashed ss ++ r).length ≤ fuel →
    cleanLoop false fuel (slashed ss ++ r) out dotdot =
      cleanLoop false r.length r (out ++ slashed ss) dotdot := by
  induction ss with
  | nil =>
    intro r fuel out dotdot _ _ _ hf
    simp only [slashed, List.nil_append, List.append_nil] at hf ⊢
    exact cleanLoop_fuel false fuel r.length r out dotdot hf (le_refl _)
  | cons s ss ih =>
    intro r fuel out dotdot hp hr ho hf
    have hs : plain s := hp s (List.mem_cons_self _ _)
    have hne : s ≠ [] := hs.1
    have hlen : 0 < s.length := List.length_pos.mpr hne
    simp only [slashed, List.cons_append, List.append_assoc, List.length_cons,
      List.length_append] at hf ⊢
    obtain ⟨f1, rfl⟩ : ∃ f1, fuel = f1 + 1 := ⟨fuel - 1, by omega⟩
    obtain ⟨f2, rfl⟩ : ∃ f2, f1 = f2 + 1 := ⟨f1 - 1, by omega⟩
    rw [cleanLoop_slash, cleanLoop_elem_rest s hs _ (slashed_append_head ss r hr),
      ih r f2 _ dotdot (fun t ht => hp t (List.mem_cons_of_mem _ ht)) hr
        (fun h => hne (List.append_eq_nil.mp h).2)
        (by simp only [List.length_append]; omega)]
    have hol : out.length ≠ 0 := by
      intro h; exact ho (List.length_eq_zero.mp h)
    simp [hol]

theorem Clean_prefix (s : Str) (ss : List Str) (r : Str) (hs : plain s)
    (hss : ∀ t ∈ ss, plain t) (hr : r = [] ∨ r.head? = some slash)
    (hout : cleanLoop false r.length r (s ++ slashed ss) 0 ≠ []) :
    Clean (s ++ (slashed ss ++ r)) = cleanLoop false r.length r (s ++ slashed ss) 0 := by
  have hne : s ≠ [] := hs.1
  obtain ⟨c, t, rfl⟩ : ∃ c t, s = c :: t := by
    cases s with
    | nil => exact absurd rfl hne
    | cons c t => exact ⟨c, t, rfl⟩
  have hc : c ≠ slash := by
    intro e
    exact hs.2.1 (by simp [e])
  unfold Clean
  rw [if_neg (by simp)]
  have hroot : (decide ((c :: t ++ (slashed ss ++ r)).head? = some slash)) = false := by
    simp [hc]
  simp only [hroot]
  have h1 := cleanLoop_elem_rest (c :: t) hs (slashed ss ++ r) (slashed_append_head ss r hr)
    ((t ++ (slashed ss ++ r)).length) [] 0
  simp only [List.cons_append, List.length_cons] at h1 ⊢
  rw [h1, cleanLoop_slashed_rest ss r _ _ 0 hss hr (by simp) (by simp)]
  simp only [List.length_nil, ne_eq, not_true_eq_false, if_false, List.nil_append,
    List.cons_append, Bool.false_eq_true] at hout ⊢
  rw [if_neg (fun h => hout (List.length_eq_zero.mp h))]

theorem getD_append_slash (p e : Str) (k : Nat) :
    (p ++ slash :: e).getD (p.length + k) 0 = (slash :: e).getD k 0 := by
  rw [List.getD_eq_getElem?_getD, List.getD_eq_getElem?_getD,
    List.getElem?_append_right (Nat.le_add_right _ _), Nat.add_sub_cancel_left]

theorem backtrack_elem (p e : Str) (he : slash ∉ e) : ∀ k, k ≤ e.length →
    backtrack (p ++ slash :: e) 0 (p.length + k) = p.length := by
  intro k
  induction k with
  | zero =>
    intro _
    cases hp : p.length with
    | zero => rfl
    | succ w =>
      have hget : (p ++ slash :: e).getD (w + 1) 0 = slash := by
        have := getD_append_slash p e 0
        rw [Nat.add_zero, hp] at this
        rw [this]; rfl
      rw [Nat.add_zero, backtrack, if_neg (fun h => h.2 hget)]
  | succ k ih =>
    intro hk
    have hlt : k < e.length := hk
    have hget : (p ++ slash :: e).getD (p.length + k + 1) 0 ≠ slash := by
      have := getD_append_slash p e (k + 1)
      rw [← Nat.add_assoc] at this
      rw [this, List.getD_eq_getElem?_getD, List.getElem?_cons_succ,
        List.getElem?_eq_getElem hlt]
      intro h
      exact he (h ▸ List.getElem_mem hlt)
    rw [← Nat.add_assoc, backtrack, if_pos ⟨Nat.succ_pos _, hget⟩]
    exact ih (by omega)

theorem cleanLoop_dotdot (r : Str) (hr : r = [] ∨ r.head? = some slash) (fuel : Nat)
    (out : Str) (dotdot : Nat) (hd : dotdot < out.length) :
    cleanLoop false (fuel + 1) (dot :: dot :: r) out dotdot =
      cleanLoop false fuel r (out.take (backtrack out dotdot (out.length - 1))) dotdot := by
  have h1 : ¬ dot = slash := by decide
  have h2 : ¬ (dot = dot ∧ (dot :: r = [] ∨ (dot :: r).head? = some slash)) := by
    rintro ⟨_, h | h⟩
    · cases h
    · simp only [List.head?_cons, Option.some.injEq] at h
      exact h1 h
  have h3 : dot = dot ∧ (dot :: r).head? = some dot ∧
      ((dot :: r).tail = [] ∨ (dot :: r).tail.head? = some slash) :=
    ⟨rfl, rfl, hr⟩
  rw [cleanLoop, if_neg h1, if_neg h2, if_pos h3, if_pos hd]
  rfl

theorem Join_eq_Clean (s : Str) (ss : List Str) (hne : s ≠ []) :
    Join (s :: ss) = Clean (s ++ slashed ss) := by
  have hl : 0 < s.length := List.length_pos.mpr hne
  unfold Join
  rw [if_neg (by simp only [List.map_cons, List.sum_cons]; omega)]
  have h1 : joinStep [] s = s := by simp [joinStep, hne]
  rw [List.foldl_cons, h1, foldl_joinStep ss s hne]

theorem slashed_append (a b : List Str) : slashed (a ++ b) = slashed a ++ slashed b := by
  induction a with
  | nil => rfl
  | cons s a ih => simp [slashed, ih]

end gopath

namespace gofmt

theorem decimal_ne_nil (u : Nat) : decimal u ≠ [] := by
  by_cases h : u < 10
  · rw [decimal_of_lt h]; simp
  · rw [decimal_of_ge (by omega)]; simp

theorem decimal_digit (u : Nat) : ∀ ch ∈ decimal u, 48 ≤ ch ∧ ch ≤ 57 := by
  induction u using Nat.strong_induction_on with
  | _ u ih =>
    intro ch hch
    by_cases h : u < 10
    · rw [decimal_of_lt h] at hch
      simp only [List.mem_singleton] at hch
      omega
    · rw [decimal_of_ge (by omega)] at hch
      simp only [List.mem_append, List.mem_singleton] at hch
      rcases hch with hch | hch
      · exact ih (u / 10) (by omega) ch hch
      · omega

theorem sprintfZeroPadded_digit (wid u : Nat) :
    ∀ ch ∈ sprintfZeroPadded wid u, 48 ≤ ch ∧ ch ≤ 57 := by
  intro ch hch
  simp only [sprintfZeroPadded, zeroPad, List.mem_append, List.mem_replicate] at hch
  rcases hch with hch | hch
  · omega
  · exact decimal_digit u ch hch

theorem sprintfZeroPadded_ne_nil (wid u : Nat) : sprintfZeroPadded wid u ≠ [] := by
  simp only [sprintfZeroPadded, zeroPad]
  intro h
  exact decimal_ne_nil u (List.append_eq_nil.mp h).2

end gofmt

namespace storage
open gopath gofmt

theorem fmtID_eq_fixed {id : Nat} (h : id < 10 ^ 20) : fmtID id = fixed 20 id :=
  zeroPad_decimal 19 id h

theorem fmtID_length {id : Nat} (h : id < 2 ^ 64) : (fmtID id).length = 20 := by
  rw [fmtID_eq_fixed (by omega), fixed_length]

theorem fmtID_digit (id : Nat) : ∀ ch ∈ fmtID id, 48 ≤ ch ∧ ch ≤ 57 :=
  sprintfZeroPadded_digit 20 id

theorem fmtID_inj {a b : Nat} (ha : a < 2 ^ 64) (hb : b < 2 ^ 64) (h : fmtID a = fmtID b) :
    a = b := by
  rw [fmtID_eq_fixed (by omega), fmtID_eq_fixed (by omega)] at h
  have := congrArg decode h
  rw [decode_fixed, decode_fixed] at this
  omega

theorem fmtID_plain (id : Nat) : plain (fmtID id) := by
  refine ⟨sprintfZeroPadded_ne_nil 20 id, ?_, ?_, ?_⟩
  · intro h
    have := fmtID_digit id _ h
    simp [slash] at this
  · intro h
    have := fmtID_digit id dot (by rw [h]; simp)
    simp [dot] at this
  · intro h
    have := fmtID_digit id dot (by rw [h]; simp)
    simp [dot] at this


theorem KeyCall.key_eq_Join (a : KeyCall) : a.key = Join (version :: a.segs) := by
  cases a <;> rfl

theorem plain_version : plain version := by decide
theorem plain_cluster : plain cluster := by decide
theorem plain_schema : plain schema := by decide
theorem plain_table : plain table := by decide
theorem plain_shard : plain shard := by decide
theorem plain_node : plain node := by decide
theorem plain_topology : plain topology := by decide
theorem plain_latestVersion : plain latestVersion := by decide
theorem plain_info : plain info := by decide

theorem KeyCall.segs_plain (a : KeyCall) (h : a.cleanArgs) : ∀ t ∈ a.segs, plain t := by
  cases a <;>
    simp only [KeyCall.segs, List.forall_mem_cons, List.mem_nil_iff, false_imp_iff,
      implies_true, and_true, plain_cluster, plain_schema, plain_table, plain_shard, plain_node,
      plain_topology, plain_latestVersion, plain_info, fmtID_plain, true_and] <;>
    first | exact h | exact h.1

theorem KeyCall.key_eq (a : KeyCall) (h : a.cleanArgs) :
    a.key = version ++ slashed a.segs := by
  rw [a.key_eq_Join, Join_plain version a.segs plain_version (a.segs_plain h)]

theorem slashed_nil_or (ss : List Str) : slashed ss = [] ∨ ∃ r, slashed ss = slash :: r := by
  cases ss with
  | nil => exact Or.inl rfl
  | cons s ss => exact Or.inr ⟨_, rfl⟩

theorem append_slashed_inj (s : Str) : ∀ (s' r r' : Str), slash ∉ s → slash ∉ s' →
    (r = [] ∨ ∃ x, r = slash :: x) → (r' = [] ∨ ∃ x, r' = slash :: x) →
    s ++ r = s' ++ r' → s = s' ∧ r = r' := by
  induction s with
  | nil =>
    intro s' r r' _ hs' hr hr' h
    cases s' with
    | nil => exact ⟨rfl, by simpa using h⟩
    | cons c s' =>
      exfalso
      simp only [List.mem_cons, not_or] at hs'
      rcases hr with hr | ⟨x, hr⟩
      · rw [hr] at h; simp at h
      · rw [hr] at h
        simp only [List.nil_append, List.cons_append, List.cons.injEq] at h
        exact hs'.1 h.1
  | cons c s ih =>
    intro s' r r' hs hs' hr hr' h
    simp only [List.mem_cons, not_or] at hs
    cases s' with
    | nil =>
      exfalso
      rcases hr' with hr' | ⟨x, hr'⟩
      · rw [hr'] at h; simp at h
      · rw [hr'] at h
        simp only [List.nil_append, List.cons_append, List.cons.injEq] at h
        exact hs.1 h.1.symm
    | cons c' s' =>
      simp only [List.mem_cons, not_or] at hs'
      simp only [List.cons_append, List.cons.injEq] at h
      obtain ⟨h1, h2⟩ := ih s' r r' hs.2 hs'.2 hr hr' h.2
      exact ⟨by rw [h.1, h1], h2⟩

theorem slashed_inj (ss : List Str) : ∀ (ss' : List Str), (∀ t ∈ ss, slash ∉ t) →
    (∀ t ∈ ss', slash ∉ t) → slashed ss = slashed ss' → ss = ss' := by
  induction ss with
  | nil =>
    intro ss' _ _ h
    cases ss' with
    | nil => rfl
    | cons s' ss' => simp [slashed] at h
  | cons s ss ih =>
    intro ss' hp hp' h
    cases ss' with
    | nil => simp [slashed] at h
    | cons s' ss' =>
      simp only [slashed, List.cons.injEq, true_and] at h
      obtain ⟨h1, h2⟩ := append_slashed_inj s s' _ _ (hp s (List.mem_cons_self _ _))
        (hp' s' (List.mem_cons_self _ _)) (slashed_nil_or ss) (slashed_nil_or ss') h
      rw [h1, ih ss' (fun t ht => hp t (List.mem_cons_of_mem _ ht))
        (fun t ht => hp' t (List.mem_cons_of_mem _ ht)) h2]

theorem KeyCall.segs_eq_of_key_eq (a b : KeyCall) (ha : a.cleanArgs) (hb : b.cleanArgs)
    (h : a.key = b.key) : a.segs = b.segs := by
  rw [a.key_eq ha, b.key_eq hb] at h
  exact slashed_inj _ _ (fun t ht => (a.segs_plain ha t ht).2.1)
    (fun t ht => (b.segs_plain hb t ht).2.1) (List.append_cancel_left h)

theorem schema_ne_shard : schema ≠ shard := by decide
theorem topology_ne_node : topology ≠ node := by decide

theorem KeyCall.eq_of_segs_eq (a b : KeyCall) (hra : a.inRange) (hrb : b.inRange)
    (ha : a.cleanArgs) (hb : b.cleanArgs) (h : a.segs = b.segs) : a = b := by
  cases a <;> cases b <;>
    simp only [KeyCall.segs, List.cons.injEq, and_true, true_and, reduceCtorEq, and_false,
      false_and] at h
  all_goals
    simp only [KeyCall.inRange, KeyCall.cleanArgs] at hra hrb ha hb
    first
    | exact absurd h.2.1 schema_ne_shard
    | exact absurd h.2.1.symm schema_ne_shard
    | exact absurd h.2.1 topology_ne_node
    | exact absurd h.2.1.symm topology_ne_node
    | exact absurd h.2.2 ha.2
    | exact absurd h.2.2.symm hb.2
    | exact absurd h.2 ha.2
    | exact absurd h.2.symm hb.2
    | exact absurd h.2.2 (ha.2 _ hrb.2.2)
    | exact absurd h.2.2.symm (hb.2 _ hra.2.2)
    | (simp only [KeyCall.clusterKey.injEq, KeyCall.schemaKey.injEq, KeyCall.tableKey.injEq,
        KeyCall.nameToIDKey.injEq, KeyCall.shardTopologyKey.injEq,
        KeyCall.shardLatestVersionKey.injEq, KeyCall.clusterTopologyKey.injEq,
        KeyCall.clusterTopologyLatestVersionKey.injEq, KeyCall.nodeKey.injEq]
       repeat' apply And.intro
       all_goals
         first
         | exact h | exact h.2 | exact h.2.2
         | exact fmtID_inj (by omega) (by omega) h
         | exact fmtID_inj (by omega) (by omega) h.1
         | exact fmtID_inj (by omega) (by omega) h.2
         | exact fmtID_inj (by omega) (by omega) h.2.1
         | exact fmtID_inj (by omega) (by omega) h.2.2)


theorem fmtID_lex {a b : Nat} (hab : a < b) (hb : b < 2 ^ 64) :
    strLess (fmtID a) (fmtID b) := by
  rw [fmtID_eq_fixed (by omega), fmtID_eq_fixed (by omega)]
  exact fixed_lt 20 a b hab (by omega)

theorem fmtID_ne_latestVersion (v : Nat) : fmtID v ≠ latestVersion := by
  intro h
  have := fmtID_digit v 108 (by rw [h]; decide)
  omega

theorem makeClusterKey_eq (c : Nat) :
    makeClusterKey c = ascii "v1/cluster/info/" ++ fmtID c := by
  have := KeyCall.key_eq (.clusterKey c) trivial
  simp only [KeyCall.key, KeyCall.segs, slashed, List.append_nil] at this
  rw [this]; rfl

theorem makeSchemaKey_eq (c s : Nat) :
    makeSchemaKey c s = ascii "v1/cluster/" ++ fmtID c ++ ascii "/schema/info/" ++ fmtID s := by
  have := KeyCall.key_eq (.schemaKey c s) trivial
  simp only [KeyCall.key, KeyCall.segs, slashed, List.append_nil] at this
  rw [this]; simp only [List.append_assoc]; rfl

theorem makeTableKey_eq (c s t : Nat) :
    makeTableKey c s t =
      ascii "v1/cluster/" ++ fmtID c ++ ascii "/schema/" ++ fmtID s ++ ascii "/table/" ++
        fmtID t := by
  have := KeyCall.key_eq (.tableKey c s t) trivial
  simp only [KeyCall.key, KeyCall.segs, slashed, List.append_nil] at this
  rw [this]; simp only [List.append_assoc]; rfl

theorem makeNameToIDKey_eq (c s : Nat) (n : Str) (hn : plain n) :
    makeNameToIDKey c s n =
      ascii "v1/cluster/" ++ fmtID c ++ ascii "/schema/" ++ fmtID s ++ ascii "/table/" ++ n := by
  have := Join_plain version (KeyCall.segs (.nameToIDKey c s n)) plain_version (by
    simp only [KeyCall.segs, List.forall_mem_cons, List.mem_nil_iff, false_imp_iff,
      implies_true, and_true, plain_cluster, plain_schema, plain_table, fmtID_plain, true_and]
    exact hn)
  simp only [KeyCall.segs, slashed, List.append_nil] at this
  unfold makeNameToIDKey
  rw [this]; simp only [List.append_assoc]; rfl

theorem makeNodeKey_eq (c : Nat) (n : Str) (hn : plain n) :
    makeNodeKey c n = ascii "v1/cluster/" ++ fmtID c ++ ascii "/node/" ++ n := by
  have := KeyCall.key_eq (.nodeKey c n) hn
  simp only [KeyCall.key, KeyCall.segs, slashed, List.append_nil] at this
  rw [this]; simp only [List.append_assoc]; rfl

theorem makeClusterTopologyLatestVersionKey_eq (c : Nat) :
    makeClusterTopologyLatestVersionKey c =
      ascii "v1/cluster/" ++ fmtID c ++ ascii "/topo/latest_version" := by
  have := KeyCall.key_eq (.clusterTopologyLatestVersionKey c) trivial
  simp only [KeyCall.key, KeyCall.segs, slashed, List.append_nil] at this
  rw [this]; simp only [List.append_assoc]; rfl

theorem makeShardLatestVersionKey_eq (c s : Nat) :
    makeShardLatestVersionKey c s =
      ascii "v1/cluster/" ++ fmtID c ++ ascii "/shard/" ++ fmtID s ++ ascii "/latest_version" := by
  have := KeyCall.key_eq (.shardLatestVersionKey c s) trivial
  simp only [KeyCall.key, KeyCall.segs, slashed, List.append_nil] at this
  rw [this]; simp only [List.append_assoc]; rfl

/-- Claim C1: for unsigned 64-bit integers `a < b` the string `fmtID a` is
strictly smaller than `fmtID b` in bytewise lexicographic order. -/
theorem fmtID_order_preserving (a b : Nat) (hab : a < b) (hb : b < 2 ^ 64) :
    strLess (fmtID a) (fmtID b) :=
  fmtID_lex hab hb

theorem fmtID_order_preserving_witness : strLess (fmtID 9) (fmtID 18446744073709551615) :=
  fmtID_order_preserving 9 18446744073709551615 (by decide) (by decide)

/-- Claim C2: for every unsigned 64-bit `id` the string `fmtID id` has exactly
20 bytes, each one a decimal digit, and is the decimal representation of `id`
(the digits `Nat.toDigits 10 id`) padded on the left with `'0'`. -/
theorem fmtID_format (id : Nat) (h : id < 2 ^ 64) :
    (fmtID id).length = 20 ∧
    (∀ ch ∈ fmtID id, '0'.toNat ≤ ch ∧ ch ≤ '9'.toNat) ∧
    fmtID id = List.replicate (20 - (Nat.toDigits 10 id).length) '0'.toNat ++
      (Nat.toDigits 10 id).map Char.toNat := by
  refine ⟨fmtID_length h, fmtID_digit id, ?_⟩
  rw [toDigits_eq id]
  have hl : (Nat.toDigits 10 id).length = (decimal id).length := by
    rw [← toDigits_eq id, List.length_map]
  rw [hl]
  rfl

theorem fmtID_format_witness :
    (fmtID 18446744073709551615).length = 20 ∧
    (∀ ch ∈ fmtID 18446744073709551615, '0'.toNat ≤ ch ∧ ch ≤ '9'.toNat) ∧
    fmtID 18446744073709551615 =
      List.replicate (20 - (Nat.toDigits 10 18446744073709551615).length) '0'.toNat ++
      (Nat.toDigits 10 18446744073709551615).map Char.toNat :=
  fmtID_format 18446744073709551615 (by decide)

set_option maxRecDepth 100000 in
/-- Claim C3, counterexample: three pairs of different calls that return the
same key. A cluster-topology snapshot whose version string is
`"latest_version"` has the key of the latest-version pointer; a table named
like the rendering of table id 7 has the key of the record of table 7; the node
names `"a"` and `"a/"` have the same key. -/
theorem KeyCall.key_collision :
    (KeyCall.key (.clusterTopologyKey 0 (ascii "latest_version")) =
        KeyCall.key (.clusterTopologyLatestVersionKey 0) ∧
      KeyCall.clusterTopologyKey 0 (ascii "latest_version") ≠
        KeyCall.clusterTopologyLatestVersionKey 0) ∧
    (KeyCall.key (.nameToIDKey 0 0 (ascii "00000000000000000007")) =
        KeyCall.key (.tableKey 0 0 7) ∧
      KeyCall.nameToIDKey 0 0 (ascii "00000000000000000007") ≠ KeyCall.tableKey 0 0 7) ∧
    (KeyCall.key (.nodeKey 0 (ascii "a/")) = KeyCall.key (.nodeKey 0 (ascii "a")) ∧
      KeyCall.nodeKey 0 (ascii "a/") ≠ KeyCall.nodeKey 0 (ascii "a")) := by
  decide

/-- Claim C3, amended: two calls of the nine key constructors whose numeric
arguments are in the range of their types and whose string arguments are single
clean path elements, no table name being the rendering of a table id and no
version string being `"latest_version"`, return the same key only if they are
the same constructor applied to the same arguments. -/
theorem KeyCall.key_injective (a b : KeyCall) (hra : a.inRange) (hrb : b.inRange)
    (ha : a.cleanArgs) (hb : b.cleanArgs) (h : a.key = b.key) : a = b :=
  KeyCall.eq_of_segs_eq a b hra hrb ha hb (KeyCall.segs_eq_of_key_eq a b ha hb h)

theorem KeyCall.key_injective_witness :
    KeyCall.nameToIDKey 1 2 (ascii "table1") = KeyCall.nameToIDKey 1 2 (ascii "table1") :=
  KeyCall.key_injective (.nameToIDKey 1 2 (ascii "table1")) (.nameToIDKey 1 2 (ascii "table1"))
    (by decide) (by decide)
    ⟨by decide, fun t ht e => by
      have hl := congrArg List.length e
      rw [fmtID_length ht] at hl
      exact absurd hl (by decide)⟩
    ⟨by decide, fun t ht e => by
      have hl := congrArg List.length e
      rw [fmtID_length ht] at hl
      exact absurd hl (by decide)⟩
    rfl

set_option maxRecDepth 100000 in
/-- Claim C4, counterexample: for cluster 1 and shard 1 the latest-version
pointer keys do not end in `latestVersion`. -/
theorem latestVersionKey_not_camelCase :
    makeClusterTopologyLatestVersionKey 1 ≠
      ascii "v1/cluster/" ++ fmtID 1 ++ ascii "/topo/latestVersion" ∧
    makeShardLatestVersionKey 1 1 ≠
      ascii "v1/cluster/" ++ fmtID 1 ++ ascii "/shard/" ++ fmtID 1 ++ ascii "/latestVersion" := by
  decide

/-- Claim C4, amended: the latest-version pointer keys end in the value of the
constant `latestVersion`, which is `"latest_version"`: for every cluster id `c`
and shard id `s` the keys are `v1/cluster/{c}/topo/latest_version` and
`v1/cluster/{c}/shard/{s}/latest_version`. -/
theorem latestVersionKey_layout (c s : Nat) :
    makeClusterTopologyLatestVersionKey c =
      ascii "v1/cluster/" ++ fmtID c ++ ascii "/topo/latest_version" ∧
    makeShardLatestVersionKey c s =
      ascii "v1/cluster/" ++ fmtID c ++ ascii "/shard/" ++ fmtID s ++ ascii "/latest_version" :=
  ⟨makeClusterTopologyLatestVersionKey_eq c, makeShardLatestVersionKey_eq c s⟩

/-- Claim C5: the record keys follow the key-space layout with every id
rendered by `fmtID`; `path.Join` rewrites nothing in them. -/
theorem recordKey_layout (c s t : Nat) :
    makeClusterKey c = ascii "v1/cluster/info/" ++ fmtID c ∧
    makeSchemaKey c s = ascii "v1/cluster/" ++ fmtID c ++ ascii "/schema/info/" ++ fmtID s ∧
    makeTableKey c s t =
      ascii "v1/cluster/" ++ fmtID c ++ ascii "/schema/" ++ fmtID s ++ ascii "/table/" ++
        fmtID t :=
  ⟨makeClusterKey_eq c, makeSchemaKey_eq c s, makeTableKey_eq c s t⟩

/-- Claim C6: record keys sort in numeric id order. For table ids `a < b`
(unsigned 64-bit) the table key of `a` is smaller than that of `b` within the
same cluster and schema; for ids `a' < b'` (unsigned 32-bit) the schema key of
`a'` is smaller than that of `b'` within the same cluster, and the cluster key
of `a'` is smaller than that of `b'`. -/
theorem recordKey_order (c s a b a' b' : Nat) (hab : a < b) (hb : b < 2 ^ 64)
    (hab' : a' < b') (hb' : b' < 2 ^ 32) :
    strLess (makeTableKey c s a) (makeTableKey c s b) ∧
    strLess (makeSchemaKey c a') (makeSchemaKey c b') ∧
    strLess (makeClusterKey a') (makeClusterKey b') := by
  refine ⟨?_, ?_, ?_⟩
  · rw [makeTableKey_eq, makeTableKey_eq]
    exact lex_append_left _ (fmtID_lex hab hb)
  · rw [makeSchemaKey_eq, makeSchemaKey_eq]
    exact lex_append_left _ (fmtID_lex hab' (by omega))
  · rw [makeClusterKey_eq, makeClusterKey_eq]
    exact lex_append_left _ (fmtID_lex hab' (by omega))

theorem recordKey_order_witness :
    strLess (makeTableKey 1 0 9) (makeTableKey 1 0 10000000000) ∧
    strLess (makeSchemaKey 1 2) (makeSchemaKey 1 4294967295) ∧
    strLess (makeClusterKey 2) (makeClusterKey 4294967295) :=
  recordKey_order 1 0 9 10000000000 2 4294967295 (by decide) (by decide) (by decide) (by decide)

/-- Claim C7: a versioned snapshot key, built with the rendering `fmtID v` of a
version, is never the key of a latest-version pointer, for shard topology and
for cluster topology, whatever the cluster and shard ids. -/
theorem snapshotKey_ne_latestVersionKey (c c' s s' v : Nat) :
    makeShardTopologyKey c s (fmtID v) ≠ makeShardLatestVersionKey c' s' ∧
    makeClusterTopologyKey c (fmtID v) ≠ makeClusterTopologyLatestVersionKey c' := by
  constructor
  · intro h
    have := KeyCall.segs_eq_of_key_eq (.shardTopologyKey c s (fmtID v))
      (.shardLatestVersionKey c' s') ⟨fmtID_plain v, fmtID_ne_latestVersion v⟩ trivial h
    simp only [KeyCall.segs, List.cons.injEq, and_true, true_and] at this
    exact fmtID_ne_latestVersion v this.2.2
  · intro h
    have := KeyCall.segs_eq_of_key_eq (.clusterTopologyKey c (fmtID v))
      (.clusterTopologyLatestVersionKey c') ⟨fmtID_plain v, fmtID_ne_latestVersion v⟩ trivial h
    simp only [KeyCall.segs, List.cons.injEq, and_true, true_and] at this
    exact fmtID_ne_latestVersion v this.2

/-- Claim C8: for a node endpoint `n` that is not empty, has no `'/'` and is
neither `"."` nor `".."`, the node key is `v1/cluster/{c}/node/` followed by
`n` verbatim; over such endpoints and 32-bit cluster ids `makeNodeKey` is
injective. -/
theorem makeNodeKey_verbatim (c c' : Nat) (n n' : Str) (hc : c < 2 ^ 32) (hc' : c' < 2 ^ 32)
    (hn : n ≠ [] ∧ slash ∉ n ∧ n ≠ ascii "." ∧ n ≠ ascii "..")
    (hn' : n' ≠ [] ∧ slash ∉ n' ∧ n' ≠ ascii "." ∧ n' ≠ ascii "..") :
    makeNodeKey c n = ascii "v1/cluster/" ++ fmtID c ++ ascii "/node/" ++ n ∧
    (makeNodeKey c n = makeNodeKey c' n' → c = c' ∧ n = n') := by
  refine ⟨makeNodeKey_eq c n hn, fun h => ?_⟩
  have := KeyCall.eq_of_segs_eq (.nodeKey c n) (.nodeKey c' n') hc hc' hn hn'
    (KeyCall.segs_eq_of_key_eq (.nodeKey c n) (.nodeKey c' n') hn hn' h)
  simpa using this

theorem makeNodeKey_verbatim_witness :
    makeNodeKey 1 (ascii "127.0.0.1:8081") =
      ascii "v1/cluster/" ++ fmtID 1 ++ ascii "/node/" ++ ascii "127.0.0.1:8081" ∧
    (makeNodeKey 1 (ascii "127.0.0.1:8081") = makeNodeKey 1 (ascii "127.0.0.2:8081") →
      1 = 1 ∧ ascii "127.0.0.1:8081" = ascii "127.0.0.2:8081") :=
  makeNodeKey_verbatim 1 1 (ascii "127.0.0.1:8081") (ascii "127.0.0.2:8081") (by decide)
    (by decide) (by decide) (by decide)

/-- Claim C14: within each of the three numeric-only kinds (cluster, schema,
table record keys) the constructor is injective on ids in the range of their
types, and no key of one of the three kinds equals a key of another. -/
theorem recordKey_injective (c1 c2 s1 s2 t1 t2 : Nat) (hc1 : c1 < 2 ^ 32) (hc2 : c2 < 2 ^ 32)
    (hs1 : s1 < 2 ^ 32) (hs2 : s2 < 2 ^ 32) (ht1 : t1 < 2 ^ 64) (ht2 : t2 < 2 ^ 64) :
    (makeClusterKey c1 = makeClusterKey c2 → c1 = c2) ∧
    (makeSchemaKey c1 s1 = makeSchemaKey c2 s2 → c1 = c2 ∧ s1 = s2) ∧
    (makeTableKey c1 s1 t1 = makeTableKey c2 s2 t2 → c1 = c2 ∧ s1 = s2 ∧ t1 = t2) ∧
    makeClusterKey c1 ≠ makeSchemaKey c2 s2 ∧
    makeClusterKey c1 ≠ makeTableKey c2 s2 t2 ∧
    makeSchemaKey c1 s1 ≠ makeTableKey c2 s2 t2 := by
  refine ⟨fun h => ?_, fun h => ?_, fun h => ?_, fun h => ?_, fun h => ?_, fun h => ?_⟩
  · have := KeyCall.eq_of_segs_eq (.clusterKey c1) (.clusterKey c2) hc1 hc2 trivial trivial
      (KeyCall.segs_eq_of_key_eq (.clusterKey c1) (.clusterKey c2) trivial trivial h)
    simpa using this
  · have := KeyCall.eq_of_segs_eq (.schemaKey c1 s1) (.schemaKey c2 s2) ⟨hc1, hs1⟩ ⟨hc2, hs2⟩
      trivial trivial
      (KeyCall.segs_eq_of_key_eq (.schemaKey c1 s1) (.schemaKey c2 s2) trivial trivial h)
    simpa using this
  · have := KeyCall.eq_of_segs_eq (.tableKey c1 s1 t1) (.tableKey c2 s2 t2) ⟨hc1, hs1, ht1⟩
      ⟨hc2, hs2, ht2⟩ trivial trivial
      (KeyCall.segs_eq_of_key_eq (.tableKey c1 s1 t1) (.tableKey c2 s2 t2) trivial trivial h)
    simpa using this
  · have := KeyCall.eq_of_segs_eq (.clusterKey c1) (.schemaKey c2 s2) hc1 ⟨hc2, hs2⟩
      trivial trivial
      (KeyCall.segs_eq_of_key_eq (.clusterKey c1) (.schemaKey c2 s2) trivial trivial h)
    cases this
  · have := KeyCall.eq_of_segs_eq (.clusterKey c1) (.tableKey c2 s2 t2) hc1 ⟨hc2, hs2, ht2⟩
      trivial trivial
      (KeyCall.segs_eq_of_key_eq (.clusterKey c1) (.tableKey c2 s2 t2) trivial trivial h)
    cases this
  · have := KeyCall.eq_of_segs_eq (.schemaKey c1 s1) (.tableKey c2 s2 t2) ⟨hc1, hs1⟩
      ⟨hc2, hs2, ht2⟩ trivial trivial
      (KeyCall.segs_eq_of_key_eq (.schemaKey c1 s1) (.tableKey c2 s2 t2) trivial trivial h)
    cases this

theorem recordKey_injective_witness :
    (makeClusterKey 1 = makeClusterKey 2 → 1 = 2) ∧
    (makeSchemaKey 1 3 = makeSchemaKey 2 4 → 1 = 2 ∧ 3 = 4) ∧
    (makeTableKey 1 3 5 = makeTableKey 2 4 18446744073709551615 →
      1 = 2 ∧ 3 = 4 ∧ 5 = 18446744073709551615) ∧
    makeClusterKey 1 ≠ makeSchemaKey 2 4 ∧
    makeClusterKey 1 ≠ makeTableKey 2 4 18446744073709551615 ∧
    makeSchemaKey 1 3 ≠ makeTableKey 2 4 18446744073709551615 :=
  recordKey_injective 1 2 3 4 5 18446744073709551615 (by decide) (by decide) (by decide)
    (by decide) (by decide) (by decide)

theorem decode_fmtID {id : Nat} (h : id < 2 ^ 64) : decode (fmtID id) = id := by
  rw [fmtID_eq_fixed (by omega), decode_fixed]
  exact Nat.mod_eq_of_lt (by omega)

/-- Claim C15: for every unsigned 64-bit `id`, reading the 20 bytes of
`fmtID id` as a base-10 number (`decode`) yields `id` again; hence `fmtID` is
injective on unsigned 64-bit integers. -/
theorem fmtID_decodable (id id' : Nat) (h : id < 2 ^ 64) (h' : id' < 2 ^ 64) :
    (fmtID id).length = 20 ∧ decode (fmtID id) = id ∧ (fmtID id = fmtID id' → id = id') := by
  refine ⟨fmtID_length h, decode_fmtID h, fun e => ?_⟩
  have := congrArg decode e
  rwa [decode_fmtID h, decode_fmtID h'] at this

theorem fmtID_decodable_witness :
    (fmtID 18446744073709551615).length = 20 ∧
    decode (fmtID 18446744073709551615) = 18446744073709551615 ∧
    (fmtID 18446744073709551615 = fmtID 0 → 18446744073709551615 = 0) :=
  fmtID_decodable 18446744073709551615 0 (by decide) (by decide)

/-- Claim C16: the name-index key of a table whose name is the rendering
`fmtID t` of a table id is the record key of the table with id `t`, for every
cluster id `c`, schema id `s` and table id `t`: both are
`v1/cluster/{c}/schema/{s}/table/{t}`. -/
theorem nameToIDKey_overlaps_tableKey (c s t : Nat) :
    makeNameToIDKey c s (fmtID t) = makeTableKey c s t ∧
    makeNameToIDKey c s (fmtID t) =
      ascii "v1/cluster/" ++ fmtID c ++ ascii "/schema/" ++ fmtID s ++ ascii "/table/" ++
        fmtID t :=
  ⟨rfl, makeNameToIDKey_eq c s (fmtID t) (fmtID_plain t)⟩

theorem makeNodeKey_empty (c : Nat) :
    makeNodeKey c [] = ascii "v1/cluster/" ++ fmtID c ++ ascii "/node" := by
  have hss : ∀ t ∈ [cluster, fmtID c, node], plain t := by
    simp only [List.forall_mem_cons, List.mem_nil_iff, false_imp_iff, implies_true, and_true,
      plain_cluster, plain_node, fmtID_plain, true_and]
  have hpath : version ++ slashed [cluster, fmtID c, node, []] =
      version ++ (slashed [cluster, fmtID c, node] ++ [slash]) := by
    simp [slashed]
  have hloop : cleanLoop false [slash].length [slash] (version ++ slashed [cluster, fmtID c, node])
      0 = version ++ slashed [cluster, fmtID c, node] := by
    show cleanLoop false (0 + 1) (slash :: []) _ 0 = _
    rw [cleanLoop_slash]
    rfl
  unfold makeNodeKey
  rw [Join_eq_Clean version _ (by decide), hpath,
    Clean_prefix version [cluster, fmtID c, node] [slash] plain_version hss (Or.inr rfl)
      (by rw [hloop]; simp [version, ascii]), hloop]
  simp only [slashed, List.append_nil, List.append_assoc]
  rfl

theorem makeNodeKey_dotdot (c s : Nat) :
    makeNodeKey c (ascii "../shard/" ++ fmtID s ++ ascii "/latest_version") =
      makeShardLatestVersionKey c s := by
  have hss : ∀ t ∈ [cluster, fmtID c, node], plain t := by
    simp only [List.forall_mem_cons, List.mem_nil_iff, false_imp_iff, implies_true, and_true,
      plain_cluster, plain_node, fmtID_plain, true_and]
  have hrr : ∀ t ∈ [shard, fmtID s, latestVersion], plain t := by
    simp only [List.forall_mem_cons, List.mem_nil_iff, false_imp_iff, implies_true, and_true,
      plain_shard, plain_latestVersion, fmtID_plain, true_and]
  have hn : ascii "../shard/" ++ fmtID s ++ ascii "/latest_version" =
      dot :: dot :: slashed [shard, fmtID s, latestVersion] := by
    simp only [slashed, List.append_nil, List.append_assoc]
    rfl
  have hpath : version ++ slashed [cluster, fmtID c, node,
        dot :: dot :: slashed [shard, fmtID s, latestVersion]] =
      version ++ (slashed [cluster, fmtID c, node] ++
        slash :: dot :: dot :: slashed [shard, fmtID s, latestVersion]) := by
    simp [slashed]
  have hout : version ++ slashed [cluster, fmtID c, node] =
      (version ++ slashed [cluster, fmtID c]) ++ slash :: node := by
    simp [slashed]
  have hback : backtrack ((version ++ slashed [cluster, fmtID c]) ++ slash :: node) 0
      (((version ++ slashed [cluster, fmtID c]) ++ slash :: node).length - 1) =
      (version ++ slashed [cluster, fmtID c]).length := by
    have := backtrack_elem (version ++ slashed [cluster, fmtID c]) node (by decide) node.length
      (le_refl _)
    rw [← this]
    congr 1
    simp only [List.length_append, List.length_cons]
    omega
  have hP : version ++ slashed [cluster, fmtID c] ≠ [] := by simp [version, ascii]
  have hloop : cleanLoop false
      (slash :: dot :: dot :: slashed [shard, fmtID s, latestVersion]).length
      (slash :: dot :: dot :: slashed [shard, fmtID s, latestVersion])
      (version ++ slashed [cluster, fmtID c, node]) 0 =
      (version ++ slashed [cluster, fmtID c]) ++ slashed [shard, fmtID s, latestVersion] := by
    have e1 : (slash :: dot :: dot :: slashed [shard, fmtID s, latestVersion]).length =
        (slashed [shard, fmtID s, latestVersion]).length + 1 + 1 + 1 := rfl
    have e2 := cleanLoop_dotdot (slashed [shard, fmtID s, latestVersion]) (slashed_head _)
      ((slashed [shard, fmtID s, latestVersion]).length + 1)
      ((version ++ slashed [cluster, fmtID c]) ++ slash :: node) 0 (by simp)
    have e3 := cleanLoop_slashed [shard, fmtID s, latestVersion]
      ((slashed [shard, fmtID s, latestVersion]).length + 1)
      (version ++ slashed [cluster, fmtID c]) 0 hrr hP (Nat.le_succ _)
    rw [e1, cleanLoop_slash, hout, e2, hback, List.take_left, e3]
  have hkey := KeyCall.key_eq (.shardLatestVersionKey c s) trivial
  simp only [KeyCall.key, KeyCall.segs] at hkey
  unfold makeNodeKey
  rw [hn, Join_eq_Clean version _ (by decide), hpath,
    Clean_prefix version [cluster, fmtID c, node]
      (slash :: dot :: dot :: slashed [shard, fmtID s, latestVersion]) plain_version hss
      (Or.inr rfl) (by rw [hloop]; simp [version, ascii]), hloop, hkey]
  have := slashed_append [cluster, fmtID c] [shard, fmtID s, latestVersion]
  simp only [List.cons_append, List.nil_append] at this
  rw [this, List.append_assoc]

/-- Claim C17: caller-supplied name segments go through the cleaning of
`path.Join` and can alias other keys. For every cluster id `c` and shard id `s`
the node name `../shard/{s}/latest_version` has the key of the latest-version
pointer of shard `s`, and the empty node name is dropped, leaving the key
`v1/cluster/{c}/node`. -/
theorem makeNodeKey_aliasing (c s : Nat) :
    makeNodeKey c (ascii "../shard/" ++ fmtID s ++ ascii "/latest_version") =
      makeShardLatestVersionKey c s ∧
    makeNodeKey c (ascii "") = ascii "v1/cluster/" ++ fmtID c ++ ascii "/node" :=
  ⟨makeNodeKey_dotdot c s, makeNodeKey_empty c⟩

end storage

namespace cluster

theorem find_replace {α : Type} (key : α → Str) (k : Str) (a : α) (l : List α)
    (h : (l.find? (fun x => key x = k)).isSome) (ha : key a = k) :
    (l.map (fun x => if key x = k then a else x)).find? (fun x => key x = k) = some a := by
  induction l with
  | nil => simp at h
  | cons b l ih =>
    by_cases hb : key b = k
    · simp [List.find?, hb, ha]
    · simp only [List.find?, hb, decide_False] at h
      simp [List.find?, hb, ih h]

theorem find_replace_ne {α : Type} (key : α → Str) (k k' : Str) (a : α) (l : List α)
    (ha : key a = k') (hne : k' ≠ k) :
    (l.map (fun x => if key x = k' then a else x)).find? (fun x => key x = k) =
      l.find? (fun x => key x = k) := by
  induction l with
  | nil => rfl
  | cons b l ih =>
    rw [List.map_cons, List.find?_cons, List.find?_cons, ih]
    by_cases hb : key b = k'
    · have hbk : decide (key b = k) = false := by
        rw [decide_eq_false_iff_not, hb]; exact hne
      have hak : decide (key a = k) = false := by
        rw [decide_eq_false_iff_not, ha]; exact hne
      rw [if_pos hb, hbk, hak]
    · rw [if_neg hb]

theorem find_name {α : Type} (key : α → Str) (k : Str) (a : α) (l : List α)
    (h : l.find? (fun x => key x = k) = some a) : key a = k := by
  have := List.find?_some h
  simpa using this

theorem find_updateCluster (cs : List Cluster) (name : Str) (c c1 : Cluster)
    (h : cs.find? (fun x => x.name = name) = some c) (h1 : c1.name = name) :
    (updateCluster cs name c1).find? (fun x => x.name = name) = some c1 :=
  find_replace Cluster.name name c1 cs (by rw [h]; rfl) h1

theorem find_updateSchema (ss : List Schema) (name : Str) (s s1 : Schema)
    (h : ss.find? (fun x => x.name = name) = some s) (h1 : s1.name = name) :
    (updateSchema ss name s1).find? (fun x => x.name = name) = some s1 :=
  find_replace Schema.name name s1 ss (by rw [h]; rfl) h1

theorem AllocSchemaID_twice (m : Manager) (clusterName schemaName : Str)
    (hrun : m.status = Status.Running) (c : Cluster)
    (hc : m.clusters.find? (fun x => x.name = clusterName) = some c) :
    ∃ id m1, AllocSchemaID m clusterName schemaName = .ok (id, m1) ∧
      AllocSchemaID m1 clusterName schemaName = .ok (id, m1) ∧
      (c.schemas = [] → id = c.schemaAlloc.next) := by
  cases hs : c.schemas.find? (fun s => s.name = schemaName) with
  | some s =>
    refine ⟨s.id, m, ?_, ?_, ?_⟩
    · simp [AllocSchemaID, hrun, hc, hs]
    · simp [AllocSchemaID, hrun, hc, hs]
    · intro h; rw [h] at hs; simp at hs
  | none =>
    have hname := find_name Cluster.name clusterName c m.clusters hc
    let s1 : Schema := ⟨(c.schemaAlloc.claim m.idAllocatorStep).1, schemaName, [], ⟨0, 0⟩⟩
    let c1 : Cluster :=
      { c with schemas := c.schemas ++ [s1],
               schemaAlloc := (c.schemaAlloc.claim m.idAllocatorStep).2 }
    let m1 : Manager := { m with clusters := updateCluster m.clusters clusterName c1 }
    have hres : AllocSchemaID m clusterName schemaName = .ok (s1.id, m1) := by
      rw [AllocSchemaID, if_neg (fun h => h hrun)]
      simp only [hc, hs]
    refine ⟨s1.id, m1, hres, ?_, fun _ => rfl⟩
    have hf : m1.clusters.find? (fun x => x.name = clusterName) = some c1 :=
      find_updateCluster m.clusters clusterName c c1 hc hname
    have hrun1 : m1.status = Status.Running := hrun
    have hsch : c1.schemas.find? (fun s => s.name = schemaName) = some s1 := by
      show (c.schemas ++ [s1]).find? (fun s => s.name = schemaName) = some s1
      simp [List.find?_append, hs, s1]
    rw [AllocSchemaID, if_neg (fun h => h hrun1)]
    simp only [hf, hsch]

theorem AllocTableID_twice (place : Nat → Str → Nat) (m : Manager)
    (clusterName schemaName tableName node1 node2 : Str)
    (hrun : m.status = Status.Running) (c : Cluster)
    (hc : m.clusters.find? (fun x => x.name = clusterName) = some c) (s : Schema)
    (hs : c.schemas.find? (fun x => x.name = schemaName) = some s) (n1 n2 : Node)
    (hn1 : c.nodes.find? (fun x => x.endpoint = node1) = some n1)
    (hn2 : c.nodes.find? (fun x => x.endpoint = node2) = some n2) :
    ∃ t m1, AllocTableID place m clusterName schemaName tableName node1 = .ok (t, m1) ∧
      AllocTableID place m1 clusterName schemaName tableName node2 = .ok (t, m1) ∧
      (s.tables.find? (fun x => x.name = tableName) = none → t.id = s.tableAlloc.next) := by
  cases ht : s.tables.find? (fun x => x.name = tableName) with
  | some t =>
    refine ⟨t, m, ?_, ?_, ?_⟩
    · rw [AllocTableID, if_neg (fun h => h hrun)]
      simp only [hc, hs, hn1, ht]
    · rw [AllocTableID, if_neg (fun h => h hrun)]
      simp only [hc, hs, hn2, ht]
    · intro h; cases h
  | none =>
    have hcname := find_name Cluster.name clusterName c m.clusters hc
    have hsname := find_name Schema.name schemaName s c.schemas hs
    let t : Table :=
      ⟨(s.tableAlloc.claim m.idAllocatorStep).1, tableName, s.id,
        n1.shards[place s.id tableName % n1.shards.length]?⟩
    let s1 : Schema :=
      { s with tables := s.tables ++ [t], tableAlloc := (s.tableAlloc.claim m.idAllocatorStep).2 }
    let c1 : Cluster := { c with schemas := updateSchema c.schemas schemaName s1 }
    let m1 : Manager := { m with clusters := updateCluster m.clusters clusterName c1 }
    have hres : AllocTableID place m clusterName schemaName tableName node1 = .ok (t, m1) := by
      rw [AllocTableID, if_neg (fun h => h hrun)]
      simp only [hc, hs, hn1, ht]
    refine ⟨t, m1, hres, ?_, fun _ => rfl⟩
    have hf : m1.clusters.find? (fun x => x.name = clusterName) = some c1 :=
      find_updateCluster m.clusters clusterName c c1 hc hcname
    have hrun1 : m1.status = Status.Running := hrun
    have hsch : c1.schemas.find? (fun x => x.name = schemaName) = some s1 :=
      find_updateSchema c.schemas schemaName s s1 hs hsname
    have hnode : c1.nodes.find? (fun x => x.endpoint = node2) = some n2 := hn2
    have htab : s1.tables.find? (fun x => x.name = tableName) = some t := by
      show (s.tables ++ [t]).find? (fun x => x.name = tableName) = some t
      simp [List.find?_append, ht, t]
    rw [AllocTableID, if_neg (fun h => h hrun1)]
    simp only [hf, hsch, hnode, htab]

theorem noSchemaYet_update (m : Manager) (cl cl' : Str) (c' c1 : Cluster)
    (h : m.noSchemaYet cl)
    (hc' : m.clusters.find? (fun x => x.name = cl') = some c')
    (hname : c1.name = c'.name)
    (hsame : c'.schemas = [] → c'.schemaAlloc.next = 0 →
      c1.schemas = [] ∧ c1.schemaAlloc.next = 0) :
    Manager.noSchemaYet { m with clusters := updateCluster m.clusters cl' c1 } cl := by
  obtain ⟨hrun, c, hc, hsch, hnext⟩ := h
  have hc'name := find_name Cluster.name cl' c' m.clusters hc'
  refine ⟨hrun, ?_⟩
  by_cases hcl : cl' = cl
  · subst hcl
    have hcc : c' = c := by rw [hc] at hc'; exact (Option.some.inj hc').symm
    subst hcc
    exact ⟨c1, find_updateCluster m.clusters cl' c' c1 hc (hname.trans hc'name),
      hsame hsch hnext⟩
  · refine ⟨c, ?_, hsch, hnext⟩
    show (updateCluster m.clusters cl' c1).find? (fun x => x.name = cl) = some c
    rw [← hc]
    exact find_replace_ne Cluster.name cl cl' c1 m.clusters (hname.trans hc'name) hcl

theorem noSchemaYet_of_CreateCluster (m : Manager) (cl name : Str) (nc rf st : Nat)
    (r : Cluster × Manager) (h : m.noSchemaYet cl)
    (hr : CreateCluster m name nc rf st = .ok r) : r.2.noSchemaYet cl := by
  simp only [CreateCluster] at hr
  split_ifs at hr
  split at hr
  · cases hr
  · cases hr
    obtain ⟨hrun, c, hc, hsch, hnext⟩ := h
    refine ⟨hrun, c, ?_, hsch, hnext⟩
    show (m.clusters ++ [_]).find? (fun x => x.name = cl) = some c
    rw [List.find?_append, hc]
    rfl

theorem noSchemaYet_of_RegisterNode (m : Manager) (cl clusterName endpoint : Str) (lease : Nat)
    (r : Manager) (h : m.noSchemaYet cl)
    (hr : RegisterNode m clusterName endpoint lease = .ok r) : r.noSchemaYet cl := by
  simp only [RegisterNode] at hr
  split_ifs at hr
  split at hr
  · cases hr
  · rename_i c' hc'
    split at hr
    · cases hr
      exact noSchemaYet_update m cl clusterName c' _ h hc' rfl (fun a b => ⟨a, b⟩)
    · cases hr
      exact noSchemaYet_update m cl clusterName c' _ h hc' rfl (fun a b => ⟨a, b⟩)

theorem noSchemaYet_of_AllocSchemaID (m : Manager) (cl clusterName schemaName : Str)
    (r : Nat × Manager) (h : m.noSchemaYet cl) (hne : clusterName ≠ cl)
    (hr : AllocSchemaID m clusterName schemaName = .ok r) : r.2.noSchemaYet cl := by
  simp only [AllocSchemaID] at hr
  split_ifs at hr
  split at hr
  · cases hr
  · rename_i c' hc'
    split at hr
    · cases hr
      exact h
    · cases hr
      obtain ⟨hrun, c, hc, hsch, hnext⟩ := h
      refine ⟨hrun, c, ?_, hsch, hnext⟩
      show (updateCluster m.clusters clusterName _).find? (fun x => x.name = cl) = some c
      rw [← hc]
      exact find_replace_ne Cluster.name cl clusterName _ m.clusters
        (find_name Cluster.name clusterName c' m.clusters hc') hne

theorem noSchemaYet_of_AllocTableID (place : Nat → Str → Nat) (m : Manager)
    (cl clusterName schemaName tableName nodeName : Str)
    (r : Table × Manager) (h : m.noSchemaYet cl)
    (hr : AllocTableID place m clusterName schemaName tableName nodeName = .ok r) :
    r.2.noSchemaYet cl := by
  simp only [AllocTableID] at hr
  split_ifs at hr
  split at hr
  · cases hr
  · rename_i c' hc'
    split at hr
    · cases hr
    · split at hr
      · cases hr
      · split at hr
        · cases hr
          exact h
        · cases hr
          exact noSchemaYet_update m cl clusterName c' _ h hc' rfl
            (fun a b => ⟨by simp [a, updateSchema], b⟩)

theorem noSchemaYet_of_DropTable (m : Manager) (cl clusterName schemaName tableName : Str)
    (tableID : Nat) (r : Manager) (h : m.noSchemaYet cl)
    (hr : DropTable m clusterName schemaName tableName tableID = .ok r) : r.noSchemaYet cl := by
  simp only [DropTable] at hr
  split_ifs at hr
  split at hr
  · cases hr
  · rename_i c' hc'
    split at hr
    · cases hr
    · split at hr
      · cases hr
      · split_ifs at hr
        cases hr
        exact noSchemaYet_update m cl clusterName c' _ h hc' rfl
          (fun a b => ⟨by simp [a, updateSchema], b⟩)

theorem noSchemaYet_apply (place : Nat → Str → Nat) (m : Manager) (cl : Str) (op : Op)
    (h : m.noSchemaYet cl) (hop : ∀ s, op ≠ Op.allocSchemaID cl s) :
    (m.apply place op).noSchemaYet cl := by
  cases op with
  | createCluster name nodeCount replicationFactor shardTotal =>
    simp only [Manager.apply]
    cases hr : CreateCluster m name nodeCount replicationFactor shardTotal with
    | error e => exact h
    | ok r => exact noSchemaYet_of_CreateCluster m cl name _ _ _ r h hr
  | registerNode clusterName endpoint lease =>
    simp only [Manager.apply]
    cases hr : RegisterNode m clusterName endpoint lease with
    | error e => exact h
    | ok r => exact noSchemaYet_of_RegisterNode m cl clusterName endpoint lease r h hr
  | allocSchemaID clusterName schemaName =>
    have hne : clusterName ≠ cl := fun e => hop schemaName (by rw [e])
    simp only [Manager.apply]
    cases hr : AllocSchemaID m clusterName schemaName with
    | error e => exact h
    | ok r => exact noSchemaYet_of_AllocSchemaID m cl clusterName schemaName r h hne hr
  | allocTableID clusterName schemaName tableName nodeName =>
    simp only [Manager.apply]
    cases hr : AllocTableID place m clusterName schemaName tableName nodeName with
    | error e => exact h
    | ok r => exact noSchemaYet_of_AllocTableID place m cl _ _ _ _ r h hr
  | dropTable clusterName schemaName tableName tableID =>
    simp only [Manager.apply]
    cases hr : DropTable m clusterName schemaName tableName tableID with
    | error e => exact h
    | ok r => exact noSchemaYet_of_DropTable m cl _ _ _ _ r h hr

theorem noSchemaYet_run (place : Nat → Str → Nat) (cl : Str) (ops : List Op) :
    ∀ m : Manager, m.noSchemaYet cl → (∀ op ∈ ops, ∀ s, op ≠ Op.allocSchemaID cl s) →
      (m.run place ops).noSchemaYet cl := by
  induction ops with
  | nil => intro m h _; exact h
  | cons op ops ih =>
    intro m h hops
    exact ih (m.apply place op)
      (noSchemaYet_apply place m cl op h (hops op (List.mem_cons_self _ _)))
      (fun o ho => hops o (List.mem_cons_of_mem _ ho))

theorem noSchemaYet_CreateCluster (m m0 : Manager) (cl : Str)
    (nodeCount replicationFactor shardTotal : Nat) (c0 : Cluster)
    (h : CreateCluster m cl nodeCount replicationFactor shardTotal = .ok (c0, m0)) :
    m0.noSchemaYet cl := by
  simp only [CreateCluster] at h
  split_ifs at h with h1 h2
  split at h
  · cases h
  · rename_i hnone
    simp only [Except.ok.injEq, Prod.mk.injEq] at h
    obtain ⟨hc0, hm0⟩ := h
    subst hm0
    refine ⟨not_not.mp h1, c0, ?_, ?_, ?_⟩
    · show (m.clusters ++ [_]).find? (fun x => x.name = cl) = some c0
      rw [List.find?_append, hnone, ← hc0]
      simp
    · rw [← hc0]
    · rw [← hc0]

theorem AllocSchemaID_first (m : Manager) (clusterName schemaName : Str)
    (h : m.noSchemaYet clusterName) :
    ∃ m1, AllocSchemaID m clusterName schemaName = .ok (0, m1) := by
  obtain ⟨hrun, c, hc, hsch, hnext⟩ := h
  obtain ⟨id, m1, h1, _, h3⟩ := AllocSchemaID_twice m clusterName schemaName hrun c hc
  refine ⟨m1, ?_⟩
  rw [h1, h3 hsch, hnext]

/-- Claim C9: on a running Manager with an existing cluster, two successive
`AllocSchemaID` calls with one name return the same id and no error; and in a
cluster created by `CreateCluster`, after any calls none of which is an
`AllocSchemaID` on that cluster, `AllocSchemaID` returns id 0. -/
theorem AllocSchemaID_idempotent (place : Nat → Str → Nat) (m : Manager)
    (clusterName schemaName : Str) (hrun : m.status = Status.Running) (c : Cluster)
    (hc : m.clusters.find? (fun x => x.name = clusterName) = some c)
    (m' m0 : Manager) (nodeCount replicationFactor shardTotal : Nat) (c0 : Cluster)
    (hcreate : CreateCluster m' clusterName nodeCount replicationFactor shardTotal = .ok (c0, m0))
    (ops : List Op) (hops : ∀ op ∈ ops, ∀ s, op ≠ Op.allocSchemaID clusterName s) :
    (∃ id m1, AllocSchemaID m clusterName schemaName = .ok (id, m1) ∧
      AllocSchemaID m1 clusterName schemaName = .ok (id, m1)) ∧
    (∃ m1, AllocSchemaID (m0.run place ops) clusterName schemaName = .ok (0, m1)) := by
  constructor
  · obtain ⟨id, m1, h1, h2, _⟩ := AllocSchemaID_twice m clusterName schemaName hrun c hc
    exact ⟨id, m1, h1, h2⟩
  · exact AllocSchemaID_first _ clusterName schemaName
      (noSchemaYet_run place clusterName ops m0
        (noSchemaYet_CreateCluster m' m0 clusterName _ _ _ c0 hcreate) hops)

theorem AllocSchemaID_idempotent_witness :
    (∃ id m1, AllocSchemaID
        (newTestClusterManager.run (fun _ _ => 0)
          [Op.createCluster cluster1 defaultNodeCount defaultReplicationFactor defaultShardTotal])
        cluster1 defaultSchema = .ok (id, m1) ∧
      AllocSchemaID m1 cluster1 defaultSchema = .ok (id, m1)) ∧
    (∃ m1, AllocSchemaID
        ((newTestClusterManager.run (fun _ _ => 0)
          [Op.createCluster cluster1 defaultNodeCount defaultReplicationFactor
            defaultShardTotal]).run (fun _ _ => 0)
          [Op.registerNode cluster1 node1 defaultLease, Op.registerNode cluster1 node2 defaultLease])
        cluster1 defaultSchema = .ok (0, m1)) :=
  AllocSchemaID_idempotent (fun _ _ => 0)
    (newTestClusterManager.run (fun _ _ => 0)
      [Op.createCluster cluster1 defaultNodeCount defaultReplicationFactor defaultShardTotal])
    cluster1 defaultSchema rfl _ rfl
    newTestClusterManager _ defaultNodeCount defaultReplicationFactor defaultShardTotal _ rfl
    [Op.registerNode cluster1 node1 defaultLease, Op.registerNode cluster1 node2 defaultLease]
    (fun op hop s e => by subst e; simp at hop)

/-- Claim C10: on a running Manager, for an existing cluster and schema and
two registered nodes (equal or different), `AllocTableID` for a table name
through the first node succeeds, and a second `AllocTableID` for the same name
through the second node returns the same table, hence the same id, and leaves
the state as it is. -/
theorem AllocTableID_idempotent (place : Nat → Str → Nat) (m : Manager)
    (clusterName schemaName tableName nodeA nodeB : Str)
    (hrun : m.status = Status.Running) (c : Cluster)
    (hc : m.clusters.find? (fun x => x.name = clusterName) = some c) (s : Schema)
    (hs : c.schemas.find? (fun x => x.name = schemaName) = some s) (nA nB : Node)
    (hnA : c.nodes.find? (fun x => x.endpoint = nodeA) = some nA)
    (hnB : c.nodes.find? (fun x => x.endpoint = nodeB) = some nB) :
    ∃ t m1, AllocTableID place m clusterName schemaName tableName nodeA = .ok (t, m1) ∧
      AllocTableID place m1 clusterName schemaName tableName nodeB = .ok (t, m1) := by
  obtain ⟨t, m1, h1, h2, _⟩ := AllocTableID_twice place m clusterName schemaName tableName
    nodeA nodeB hrun c hc s hs nA nB hnA hnB
  exact ⟨t, m1, h1, h2⟩

theorem AllocTableID_idempotent_witness :
    ∃ t m1, AllocTableID (fun _ _ => 0)
        (newTestClusterManager.run (fun _ _ => 0)
          [Op.createCluster cluster1 defaultNodeCount defaultReplicationFactor defaultShardTotal,
            Op.registerNode cluster1 node1 defaultLease,
            Op.registerNode cluster1 node2 defaultLease,
            Op.allocSchemaID cluster1 defaultSchema])
        cluster1 defaultSchema table1 node1 = .ok (t, m1) ∧
      AllocTableID (fun _ _ => 0) m1 cluster1 defaultSchema table1 node2 = .ok (t, m1) :=
  AllocTableID_idempotent (fun _ _ => 0)
    (newTestClusterManager.run (fun _ _ => 0)
      [Op.createCluster cluster1 defaultNodeCount defaultReplicationFactor defaultShardTotal,
        Op.registerNode cluster1 node1 defaultLease,
        Op.registerNode cluster1 node2 defaultLease,
        Op.allocSchemaID cluster1 defaultSchema])
    cluster1 defaultSchema table1 node1 node2 rfl _ rfl _ rfl _ _ rfl rfl

theorem AllocTableID_new (place : Nat → Str → Nat) (m : Manager)
    (clusterName schemaName tableName nodeName : Str)
    (hrun : m.status = Status.Running) (c : Cluster)
    (hc : m.clusters.find? (fun x => x.name = clusterName) = some c) (s : Schema)
    (hs : c.schemas.find? (fun x => x.name = schemaName) = some s) (n : Node)
    (hn : c.nodes.find? (fun x => x.endpoint = nodeName) = some n)
    (ht : s.tables.find? (fun x => x.name = tableName) = none) :
    ∃ t m1 c1 s1, AllocTableID place m clusterName schemaName tableName nodeName = .ok (t, m1) ∧
      t.id = s.tableAlloc.next ∧ t.name = tableName ∧ m1.status = Status.Running ∧
      m1.clusters.find? (fun x => x.name = clusterName) = some c1 ∧ c1.nodes = c.nodes ∧
      c1.schemas.find? (fun x => x.name = schemaName) = some s1 ∧
      s1.tables = s.tables ++ [t] ∧ s1.tableAlloc.next = s.tableAlloc.next + 1 := by
  have hcname := find_name Cluster.name clusterName c m.clusters hc
  have hsname := find_name Schema.name schemaName s c.schemas hs
  let t : Table :=
    ⟨(s.tableAlloc.claim m.idAllocatorStep).1, tableName, s.id,
      n.shards[place s.id tableName % n.shards.length]?⟩
  let s1 : Schema :=
    { s with tables := s.tables ++ [t], tableAlloc := (s.tableAlloc.claim m.idAllocatorStep).2 }
  let c1 : Cluster := { c with schemas := updateSchema c.schemas schemaName s1 }
  let m1 : Manager := { m with clusters := updateCluster m.clusters clusterName c1 }
  have hres : AllocTableID place m clusterName schemaName tableName nodeName = .ok (t, m1) := by
    rw [AllocTableID, if_neg (fun h => h hrun)]
    simp only [hc, hs, hn, ht]
  exact ⟨t, m1, c1, s1, hres, rfl, rfl, hrun,
    find_updateCluster m.clusters clusterName c c1 hc hcname, rfl,
    find_updateSchema c.schemas schemaName s s1 hs hsname, rfl, rfl⟩

theorem find_none_of_names {tables : List Table} {name : Str}
    (h : ∀ t ∈ tables, t.name ≠ name) : tables.find? (fun x => x.name = name) = none := by
  rw [List.find?_eq_none]
  intro t ht
  simpa using h t ht

theorem allocTableIDs_new (place : Nat → Str → Nat) (clusterName schemaName : Str)
    (reqs : List (Str × Str)) : ∀ (m : Manager) (c : Cluster) (s : Schema),
    m.status = Status.Running →
    m.clusters.find? (fun x => x.name = clusterName) = some c →
    c.schemas.find? (fun x => x.name = schemaName) = some s →
    (reqs.map Prod.fst).Nodup →
    (∀ req ∈ reqs, ∀ t ∈ s.tables, t.name ≠ req.1) →
    (∀ req ∈ reqs, (c.nodes.find? (fun x => x.endpoint = req.2)).isSome) →
    allocTableIDs place m clusterName schemaName reqs =
      (List.range' s.tableAlloc.next reqs.length).map Except.ok := by
  induction reqs with
  | nil => intro m c s _ _ _ _ _ _; rfl
  | cons req rest ih =>
    intro m c s hrun hc hs hnodup hnames hnodes
    obtain ⟨n, hn⟩ := Option.isSome_iff_exists.mp (hnodes req (List.mem_cons_self _ _))
    have ht := find_none_of_names (hnames req (List.mem_cons_self _ _))
    obtain ⟨t, m1, c1, s1, hres, hid, hname, hrun1, hc1, hnodes1, hs1, htab, hnext⟩ :=
      AllocTableID_new place m clusterName schemaName req.1 req.2 hrun c hc s hs n hn ht
    simp only [List.map_cons, List.nodup_cons] at hnodup
    have hrest := ih m1 c1 s1 hrun1 hc1 hs1 hnodup.2
      (by
        intro r hr t' ht'
        rw [htab, List.mem_append, List.mem_singleton] at ht'
        rcases ht' with ht' | ht'
        · exact hnames r (List.mem_cons_of_mem _ hr) t' ht'
        · rw [ht', hname]
          intro e
          exact hnodup.1 (e ▸ List.mem_map_of_mem Prod.fst hr))
      (by
        intro r hr
        rw [hnodes1]
        exact hnodes r (List.mem_cons_of_mem _ hr))
    simp only [allocTableIDs, hres, hrest, hnext, hid, List.length_cons, List.range'_succ,
      List.map_cons]

/-- Claim C11: in a fresh schema (no table, table-id allocator at 0, the state
in which `AllocSchemaID` creates a schema), allocating pairwise distinct table
names one after another, each through any registered node, returns the ids
`0, 1, ..., k-1` in that order. -/
theorem AllocTableID_dense (place : Nat → Str → Nat) (m : Manager)
    (clusterName schemaName : Str) (reqs : List (Str × Str))
    (hrun : m.status = Status.Running) (c : Cluster)
    (hc : m.clusters.find? (fun x => x.name = clusterName) = some c) (s : Schema)
    (hs : c.schemas.find? (fun x => x.name = schemaName) = some s)
    (hfresh : s.tables = [] ∧ s.tableAlloc.next = 0)
    (hnames : (reqs.map Prod.fst).Nodup)
    (hnodes : ∀ req ∈ reqs, (c.nodes.find? (fun x => x.endpoint = req.2)).isSome) :
    allocTableIDs place m clusterName schemaName reqs =
      (List.range reqs.length).map Except.ok := by
  have := allocTableIDs_new place clusterName schemaName reqs m c s hrun hc hs hnames
    (by intro r _ t ht; rw [hfresh.1] at ht; cases ht) hnodes
  rw [this, hfresh.2, List.range_eq_range']

theorem AllocTableID_dense_witness :
    allocTableIDs (fun _ _ => 0)
      (newTestClusterManager.run (fun _ _ => 0)
        [Op.createCluster cluster1 defaultNodeCount defaultReplicationFactor defaultShardTotal,
          Op.registerNode cluster1 node1 defaultLease,
          Op.registerNode cluster1 node2 defaultLease,
          Op.allocSchemaID cluster1 defaultSchema])
      cluster1 defaultSchema [(table1, node1), (table2, node1), (table3, node2), (table4, node2)] =
      [Except.ok 0, Except.ok 1, Except.ok 2, Except.ok 3] :=
  AllocTableID_dense (fun _ _ => 0)
    (newTestClusterManager.run (fun _ _ => 0)
      [Op.createCluster cluster1 defaultNodeCount defaultReplicationFactor defaultShardTotal,
        Op.registerNode cluster1 node1 defaultLease,
        Op.registerNode cluster1 node2 defaultLease,
        Op.allocSchemaID cluster1 defaultSchema])
    cluster1 defaultSchema [(table1, node1), (table2, node1), (table3, node2), (table4, node2)]
    rfl _ rfl _ rfl ⟨rfl, rfl⟩ (by decide) (by decide)

theorem find_replace_prop {α : Type} (key : α → Str) (P : α → Prop) (k k' : Str) (a' a1 : α)
    (l : List α) (h : ∃ a, l.find? (fun x => key x = k) = some a ∧ P a)
    (h' : l.find? (fun x => key x = k') = some a') (hname : key a1 = key a')
    (hP : P a' → P a1) :
    ∃ a, (l.map (fun x => if key x = k' then a1 else x)).find? (fun x => key x = k) = some a ∧
      P a := by
  obtain ⟨a, ha, hpa⟩ := h
  have hk' := find_name key k' a' l h'
  by_cases hkk : k' = k
  · subst hkk
    have haa : a' = a := by rw [ha] at h'; exact (Option.some.inj h').symm
    subst haa
    exact ⟨a1, find_replace key k' a1 l (by rw [ha]; rfl) (hname.trans hk'), hP hpa⟩
  · exact ⟨a, by rw [find_replace_ne key k k' a1 l (hname.trans hk') hkk]; exact ha, hpa⟩

theorem find_append_of_some {α : Type} (p : α → Bool) (l l' : List α) (a : α)
    (h : l.find? p = some a) : (l ++ l').find? p = some a := by
  rw [List.find?_append, h]; rfl

/-! ### `Manager.retired` is kept by every operation -/

theorem retired_update (m : Manager) (cl sc cl' : Str) (i : Nat) (c' c1 : Cluster)
    (h : m.retired cl sc i)
    (hc' : m.clusters.find? (fun x => x.name = cl') = some c')
    (hname : c1.name = c'.name)
    (hP : (∃ s, c'.schemas.find? (fun x => x.name = sc) = some s ∧ s.retired i) →
      ∃ s, c1.schemas.find? (fun x => x.name = sc) = some s ∧ s.retired i) :
    Manager.retired { m with clusters := updateCluster m.clusters cl' c1 } cl sc i :=
  ⟨h.1, find_replace_prop Cluster.name
    (fun c => ∃ s, c.schemas.find? (fun x => x.name = sc) = some s ∧ s.retired i)
    cl cl' c' c1 m.clusters h.2 hc' hname hP⟩

theorem retired_of_CreateCluster (m : Manager) (cl sc name : Str) (i nc rf st : Nat)
    (r : Cluster × Manager) (h : m.retired cl sc i)
    (hr : CreateCluster m name nc rf st = .ok r) : r.2.retired cl sc i := by
  simp only [CreateCluster] at hr
  split_ifs at hr
  split at hr
  · cases hr
  · cases hr
    obtain ⟨hrun, c, hc, hs⟩ := h
    exact ⟨hrun, c, find_append_of_some _ _ _ c hc, hs⟩

theorem retired_of_RegisterNode (m : Manager) (cl sc clusterName endpoint : Str) (i lease : Nat)
    (r : Manager) (h : m.retired cl sc i)
    (hr : RegisterNode m clusterName endpoint lease = .ok r) : r.retired cl sc i := by
  simp only [RegisterNode] at hr
  split_ifs at hr
  split at hr
  · cases hr
  · rename_i c' hc'
    split at hr
    · cases hr
      exact retired_update m cl sc clusterName i c' _ h hc' rfl (fun a => a)
    · cases hr
      exact retired_update m cl sc clusterName i c' _ h hc' rfl (fun a => a)

theorem retired_of_AllocSchemaID (m : Manager) (cl sc clusterName schemaName : Str) (i : Nat)
    (r : Nat × Manager) (h : m.retired cl sc i)
    (hr : AllocSchemaID m clusterName schemaName = .ok r) : r.2.retired cl sc i := by
  simp only [AllocSchemaID] at hr
  split_ifs at hr
  split at hr
  · cases hr
  · rename_i c' hc'
    split at hr
    · cases hr
      exact h
    · cases hr
      exact retired_update m cl sc clusterName i c' _ h hc' rfl
        (fun ⟨s, hs, hret⟩ => ⟨s, find_append_of_some _ _ _ s hs, hret⟩)

theorem retired_of_AllocTableID (place : Nat → Str → Nat) (m : Manager)
    (cl sc clusterName schemaName tableName nodeName : Str) (i : Nat)
    (r : Table × Manager) (h : m.retired cl sc i)
    (hr : AllocTableID place m clusterName schemaName tableName nodeName = .ok r) :
    r.2.retired cl sc i := by
  simp only [AllocTableID] at hr
  split_ifs at hr
  split at hr
  · cases hr
  · rename_i c' hc'
    split at hr
    · cases hr
    · rename_i s' hs'
      split at hr
      · cases hr
      · split at hr
        · cases hr
          exact h
        · cases hr
          refine retired_update m cl sc clusterName i c' _ h hc' rfl (fun hex => ?_)
          refine find_replace_prop Schema.name (Schema.retired i) sc schemaName s' _ c'.schemas
            hex hs' rfl (fun hret => ?_)
          refine ⟨Nat.lt_succ_of_lt hret.1, fun t ht => ?_⟩
          simp only [List.mem_append, List.mem_singleton] at ht
          rcases ht with ht | ht
          · exact hret.2 t ht
          · rw [ht]
            exact Nat.ne_of_gt hret.1

theorem retired_of_DropTable (m : Manager) (cl sc clusterName schemaName tableName : Str)
    (i tableID : Nat) (r : Manager) (h : m.retired cl sc i)
    (hr : DropTable m clusterName schemaName tableName tableID = .ok r) : r.retired cl sc i := by
  simp only [DropTable] at hr
  split_ifs at hr
  split at hr
  · cases hr
  · rename_i c' hc'
    split at hr
    · cases hr
    · rename_i s' hs'
      split at hr
      · cases hr
      · split_ifs at hr
        cases hr
        refine retired_update m cl sc clusterName i c' _ h hc' rfl (fun hex => ?_)
        refine find_replace_prop Schema.name (Schema.retired i) sc schemaName s' _ c'.schemas
          hex hs' rfl (fun hret => ?_)
        exact ⟨hret.1, fun t ht => hret.2 t (List.mem_of_mem_filter ht)⟩

theorem retired_apply (place : Nat → Str → Nat) (m : Manager) (cl sc : Str) (i : Nat) (op : Op)
    (h : m.retired cl sc i) : (m.apply place op).retired cl sc i := by
  cases op with
  | createCluster name nodeCount replicationFactor shardTotal =>
    simp only [Manager.apply]
    cases hr : CreateCluster m name nodeCount replicationFactor shardTotal with
    | error e => exact h
    | ok r => exact retired_of_CreateCluster m cl sc name i _ _ _ r h hr
  | registerNode clusterName endpoint lease =>
    simp only [Manager.apply]
    cases hr : RegisterNode m clusterName endpoint lease with
    | error e => exact h
    | ok r => exact retired_of_RegisterNode m cl sc clusterName endpoint i lease r h hr
  | allocSchemaID clusterName schemaName =>
    simp only [Manager.apply]
    cases hr : AllocSchemaID m clusterName schemaName with
    | error e => exact h
    | ok r => exact retired_of_AllocSchemaID m cl sc clusterName schemaName i r h hr
  | allocTableID clusterName schemaName tableName nodeName =>
    simp only [Manager.apply]
    cases hr : AllocTableID place m clusterName schemaName tableName nodeName with
    | error e => exact h
    | ok r => exact retired_of_AllocTableID place m cl sc _ _ _ _ i r h hr
  | dropTable clusterName schemaName tableName tableID =>
    simp only [Manager.apply]
    cases hr : DropTable m clusterName schemaName tableName tableID with
    | error e => exact h
    | ok r => exact retired_of_DropTable m cl sc _ _ _ i tableID r h hr

theorem retired_run (place : Nat → Str → Nat) (cl sc : Str) (i : Nat) (ops : List Op) :
    ∀ m : Manager, m.retired cl sc i → (m.run place ops).retired cl sc i := by
  induction ops with
  | nil => intro m h; exact h
  | cons op ops ih => intro m h; exact ih (m.apply place op) (retired_apply place m cl sc i op h)

/-! ### `Manager.idsIssued` holds in every reachable state -/

theorem idsIssued_update (m : Manager) (cl' : Str) (c1 : Cluster) (h : m.idsIssued)
    (h1 : ∀ s ∈ c1.schemas, s.idsIssued) :
    Manager.idsIssued { m with clusters := updateCluster m.clusters cl' c1 } := by
  intro c hc
  simp only [updateCluster, List.mem_map] at hc
  obtain ⟨x, hx, rfl⟩ := hc
  split_ifs
  · exact h1
  · exact h x hx

theorem idsIssued_updateSchema (ss : List Schema) (sc : Str) (s1 : Schema)
    (h : ∀ s ∈ ss, s.idsIssued) (h1 : s1.idsIssued) :
    ∀ s ∈ updateSchema ss sc s1, s.idsIssued := by
  intro s hs
  simp only [updateSchema, List.mem_map] at hs
  obtain ⟨x, hx, rfl⟩ := hs
  split_ifs
  · exact h1
  · exact h x hx

theorem idsIssued_of_CreateCluster (m : Manager) (name : Str) (nc rf st : Nat)
    (r : Cluster × Manager) (h : m.idsIssued)
    (hr : CreateCluster m name nc rf st = .ok r) : r.2.idsIssued := by
  simp only [CreateCluster] at hr
  split_ifs at hr
  split at hr
  · cases hr
  · cases hr
    intro c hc
    simp only [List.mem_append, List.mem_singleton] at hc
    rcases hc with hc | hc
    · exact h c hc
    · subst hc
      intro s hs
      cases hs

theorem idsIssued_of_RegisterNode (m : Manager) (clusterName endpoint : Str) (lease : Nat)
    (r : Manager) (h : m.idsIssued)
    (hr : RegisterNode m clusterName endpoint lease = .ok r) : r.idsIssued := by
  simp only [RegisterNode] at hr
  split_ifs at hr
  split at hr
  · cases hr
  · rename_i c' hc'
    have hmem := List.mem_of_find?_eq_some hc'
    split at hr
    · cases hr
      exact idsIssued_update m clusterName _ h (h c' hmem)
    · cases hr
      exact idsIssued_update m clusterName _ h (h c' hmem)

theorem idsIssued_of_AllocSchemaID (m : Manager) (clusterName schemaName : Str)
    (r : Nat × Manager) (h : m.idsIssued)
    (hr : AllocSchemaID m clusterName schemaName = .ok r) : r.2.idsIssued := by
  simp only [AllocSchemaID] at hr
  split_ifs at hr
  split at hr
  · cases hr
  · rename_i c' hc'
    have hmem := List.mem_of_find?_eq_some hc'
    split at hr
    · cases hr
      exact h
    · cases hr
      refine idsIssued_update m clusterName _ h (fun s hs => ?_)
      simp only [List.mem_append, List.mem_singleton] at hs
      rcases hs with hs | hs
      · exact h c' hmem s hs
      · subst hs
        exact ⟨fun t ht => absurd ht (List.not_mem_nil t), List.nodup_nil⟩

theorem idsIssued_snoc (s : Schema) (t : Table) (a : IDAllocator) (h : s.idsIssued)
    (ht : t.id = s.tableAlloc.next) (ha : a.next = s.tableAlloc.next + 1) :
    Schema.idsIssued { s with tables := s.tables ++ [t], tableAlloc := a } := by
  constructor
  · intro x hx
    simp only [List.mem_append, List.mem_singleton] at hx
    show x.id < a.next
    rcases hx with hx | hx
    · have := h.1 x hx
      omega
    · rw [hx, ht, ha]
      exact Nat.lt_succ_self _
  · show ((s.tables ++ [t]).map Table.id).Nodup
    rw [List.map_append, List.nodup_append]
    refine ⟨h.2, List.nodup_singleton _, ?_⟩
    intro i hi hj
    simp only [List.map_cons, List.map_nil, List.mem_singleton] at hj
    obtain ⟨x, hx, rfl⟩ := List.mem_map.mp hi
    have := h.1 x hx
    omega

theorem idsIssued_of_AllocTableID (place : Nat → Str → Nat) (m : Manager)
    (clusterName schemaName tableName nodeName : Str)
    (r : Table × Manager) (h : m.idsIssued)
    (hr : AllocTableID place m clusterName schemaName tableName nodeName = .ok r) :
    r.2.idsIssued := by
  simp only [AllocTableID] at hr
  split_ifs at hr
  split at hr
  · cases hr
  · rename_i c' hc'
    have hmem := List.mem_of_find?_eq_some hc'
    split at hr
    · cases hr
    · rename_i s' hs'
      have hsmem := List.mem_of_find?_eq_some hs'
      split at hr
      · cases hr
      · split at hr
        · cases hr
          exact h
        · cases hr
          refine idsIssued_update m clusterName _ h ?_
          exact idsIssued_updateSchema c'.schemas schemaName _ (h c' hmem)
            (idsIssued_snoc s' _ _ (h c' hmem s' hsmem) rfl rfl)

theorem idsIssued_of_DropTable (m : Manager) (clusterName schemaName tableName : Str)
    (tableID : Nat) (r : Manager) (h : m.idsIssued)
    (hr : DropTable m clusterName schemaName tableName tableID = .ok r) : r.idsIssued := by
  simp only [DropTable] at hr
  split_ifs at hr
  split at hr
  · cases hr
  · rename_i c' hc'
    have hmem := List.mem_of_find?_eq_some hc'
    split at hr
    · cases hr
    · rename_i s' hs'
      have hsmem := List.mem_of_find?_eq_some hs'
      split at hr
      · cases hr
      · split_ifs at hr
        cases hr
        refine idsIssued_update m clusterName _ h ?_
        refine idsIssued_updateSchema c'.schemas schemaName _ (h c' hmem) ?_
        have hs := h c' hmem s' hsmem
        exact ⟨fun t ht => hs.1 t (List.mem_of_mem_filter ht),
          hs.2.sublist ((List.filter_sublist _).map Table.id)⟩

theorem idsIssued_apply (place : Nat → Str → Nat) (m : Manager) (op : Op) (h : m.idsIssued) :
    (m.apply place op).idsIssued := by
  cases op with
  | createCluster name nodeCount replicationFactor shardTotal =>
    simp only [Manager.apply]
    cases hr : CreateCluster m name nodeCount replicationFactor shardTotal with
    | error e => exact h
    | ok r => exact idsIssued_of_CreateCluster m name _ _ _ r h hr
  | registerNode clusterName endpoint lease =>
    simp only [Manager.apply]
    cases hr : RegisterNode m clusterName endpoint lease with
    | error e => exact h
    | ok r => exact idsIssued_of_RegisterNode m clusterName endpoint lease r h hr
  | allocSchemaID clusterName schemaName =>
    simp only [Manager.apply]
    cases hr : AllocSchemaID m clusterName schemaName with
    | error e => exact h
    | ok r => exact idsIssued_of_AllocSchemaID m clusterName schemaName r h hr
  | allocTableID clusterName schemaName tableName nodeName =>
    simp only [Manager.apply]
    cases hr : AllocTableID place m clusterName schemaName tableName nodeName with
    | error e => exact h
    | ok r => exact idsIssued_of_AllocTableID place m _ _ _ _ r h hr
  | dropTable clusterName schemaName tableName tableID =>
    simp only [Manager.apply]
    cases hr : DropTable m clusterName schemaName tableName tableID with
    | error e => exact h
    | ok r => exact idsIssued_of_DropTable m _ _ _ tableID r h hr

theorem idsIssued_run (place : Nat → Str → Nat) (ops : List Op) :
    ∀ m : Manager, m.idsIssued → (m.run place ops).idsIssued := by
  induction ops with
  | nil => intro m h; exact h
  | cons op ops ih => intro m h; exact ih (m.apply place op) (idsIssued_apply place m op h)

theorem idsIssued_of_empty (m : Manager) (h : m.clusters = []) : m.idsIssued := by
  intro c hc
  rw [h] at hc
  cases hc

theorem AllocTableID_ok_find (place : Nat → Str → Nat) (m : Manager)
    (clusterName schemaName tableName nodeName : Str) (t : Table) (m1 : Manager)
    (h : AllocTableID place m clusterName schemaName tableName nodeName = .ok (t, m1)) :
    m1.status = Status.Running ∧
    ∃ c s c1 s1, m.clusters.find? (fun x => x.name = clusterName) = some c ∧
      c.schemas.find? (fun x => x.name = schemaName) = some s ∧
      m1.clusters.find? (fun x => x.name = clusterName) = some c1 ∧
      c1.schemas.find? (fun x => x.name = schemaName) = some s1 ∧
      s1.tables.find? (fun x => x.name = tableName) = some t ∧
      (s.tables.find? (fun x => x.name = tableName) = none →
        t.id = s.tableAlloc.next ∧ s1.tableAlloc.next = s.tableAlloc.next + 1) := by
  have h' := h
  simp only [AllocTableID] at h'
  split_ifs at h' with hnr
  have hrun : m.status = Status.Running := not_not.mp hnr
  split at h'
  · cases h'
  · rename_i c hc
    split at h'
    · cases h'
    · rename_i s hs
      split at h'
      · cases h'
      · rename_i n hn
        split at h'
        · rename_i t0 ht
          simp only [Except.ok.injEq, Prod.mk.injEq] at h'
          obtain ⟨rfl, rfl⟩ := h'
          exact ⟨hrun, c, s, c, s, hc, hs, hc, hs, ht, fun e => by rw [ht] at e; cases e⟩
        · rename_i ht
          obtain ⟨t', m1', c1, s1, hres, hid, hname, hrun1, hc1, _, hs1, htab, hnext⟩ :=
            AllocTableID_new place m clusterName schemaName tableName nodeName hrun c hc s hs
              n hn ht
          rw [hres] at h
          simp only [Except.ok.injEq, Prod.mk.injEq] at h
          obtain ⟨rfl, rfl⟩ := h
          refine ⟨hrun1, c, s, c1, s1, hc, hs, hc1, hs1, ?_, fun _ => ⟨hid, hnext⟩⟩
          rw [htab, List.find?_append, ht]
          simp [hname]

theorem DropTable_retired (m1 m2 : Manager) (clusterName schemaName tableName : Str)
    (t : Table) (hrun : m1.status = Status.Running) (c1 : Cluster)
    (hc1 : m1.clusters.find? (fun x => x.name = clusterName) = some c1) (s1 : Schema)
    (hs1 : c1.schemas.find? (fun x => x.name = schemaName) = some s1)
    (ht : s1.tables.find? (fun x => x.name = tableName) = some t)
    (hissued : s1.idsIssued)
    (h : DropTable m1 clusterName schemaName tableName t.id = .ok m2) :
    m2.status = Status.Running ∧
    ∃ c2 s2, m2.clusters.find? (fun x => x.name = clusterName) = some c2 ∧
      c2.schemas.find? (fun x => x.name = schemaName) = some s2 ∧
      s2.retired t.id ∧ s2.tables.find? (fun x => x.name = tableName) = none ∧
      s2.tableAlloc = s1.tableAlloc := by
  have hcname := find_name Cluster.name clusterName c1 m1.clusters hc1
  have hsname := find_name Schema.name schemaName s1 c1.schemas hs1
  have htname : t.name = tableName := by
    have := List.find?_some ht
    simpa using this
  have htmem := List.mem_of_find?_eq_some ht
  rw [DropTable, if_neg (fun h => h hrun)] at h
  simp only [hc1, hs1, ht, ne_eq, not_true_eq_false, if_false, Except.ok.injEq] at h
  subst h
  refine ⟨hrun, _, _, find_updateCluster m1.clusters clusterName c1 _ hc1 hcname,
    find_updateSchema c1.schemas schemaName s1 _ hs1 hsname, ⟨hissued.1 t htmem, ?_⟩, ?_, rfl⟩
  · intro x hx e
    have hxmem := List.mem_of_mem_filter hx
    have hxname : x.name ≠ tableName := by
      have := (List.mem_filter.mp hx).2
      simpa using this
    have hxt : x = t := List.inj_on_of_nodup_map hissued.2 hxmem htmem e
    exact hxname (hxt ▸ htname)
  · rw [List.find?_eq_none]
    intro x hx
    have := (List.mem_filter.mp hx).2
    simpa using this

theorem AllocTableID_after_retired (place : Nat → Str → Nat) (m : Manager)
    (clusterName schemaName tableName nodeName : Str) (i : Nat)
    (h : m.retired clusterName schemaName i) (c : Cluster)
    (hc : m.clusters.find? (fun x => x.name = clusterName) = some c) (n : Node)
    (hn : c.nodes.find? (fun x => x.endpoint = nodeName) = some n) :
    ∃ t m1, AllocTableID place m clusterName schemaName tableName nodeName = .ok (t, m1) ∧
      t.id ≠ i ∧
      ∀ s, c.schemas.find? (fun x => x.name = schemaName) = some s →
        s.tables.find? (fun x => x.name = tableName) = none → t.id = s.tableAlloc.next := by
  obtain ⟨hrun, c0, hc0, s, hs, hlt, hne⟩ := h
  have hcc : c0 = c := by rw [hc] at hc0; exact (Option.some.inj hc0).symm
  subst hcc
  cases ht : s.tables.find? (fun x => x.name = tableName) with
  | some t =>
    refine ⟨t, m, ?_, hne t (List.mem_of_find?_eq_some ht), ?_⟩
    · rw [AllocTableID, if_neg (fun h => h hrun)]
      simp only [hc, hs, hn, ht]
    · intro s' hs' ht'
      rw [hs] at hs'
      cases hs'
      rw [ht] at ht'
      cases ht'
  | none =>
    obtain ⟨t, m1, _, _, hres, hid, _⟩ :=
      AllocTableID_new place m clusterName schemaName tableName nodeName hrun c0 hc s hs n hn ht
    refine ⟨t, m1, hres, by rw [hid]; exact Nat.ne_of_gt hlt, ?_⟩
    intro s' hs' _
    rw [hs] at hs'
    cases hs'
    exact hid

/-- Claim C12: in a state reached from an empty running Manager, after
`AllocTableID` returned a table with id `i` for a name and `DropTable` of that
name and id succeeded, an `AllocTableID` through a registered node, with the
same name or any other and after any further calls, succeeds with an id
different from `i`. When it has the same name, follows the drop at once and
the name was new at the first call, the first call got the next id of the
schema and the second the one after it (0 and then 1 in a fresh schema). -/
theorem DropTable_retires_id (place : Nat → Str → Nat) (m0 : Manager) (h0 : m0.clusters = [])
    (ops0 : List Op) (clusterName schemaName tableName nodeA laterName nodeB : Str) (t : Table)
    (m1 m2 : Manager)
    (halloc : AllocTableID place (m0.run place ops0) clusterName schemaName tableName nodeA =
      .ok (t, m1))
    (hdrop : DropTable m1 clusterName schemaName tableName t.id = .ok m2)
    (ops : List Op) (c3 : Cluster)
    (hc3 : (m2.run place ops).clusters.find? (fun x => x.name = clusterName) = some c3)
    (nB : Node) (hnB : c3.nodes.find? (fun x => x.endpoint = nodeB) = some nB) :
    ∃ t' m4, AllocTableID place (m2.run place ops) clusterName schemaName laterName nodeB =
        .ok (t', m4) ∧
      t'.id ≠ t.id ∧
      (laterName = tableName → ops = [] → ∀ c s,
        (m0.run place ops0).clusters.find? (fun x => x.name = clusterName) = some c →
        c.schemas.find? (fun x => x.name = schemaName) = some s →
        s.tables.find? (fun x => x.name = tableName) = none →
        t.id = s.tableAlloc.next ∧ t'.id = s.tableAlloc.next + 1) := by
  have hiss0 := idsIssued_run place ops0 m0 (idsIssued_of_empty m0 h0)
  have hiss1 : m1.idsIssued :=
    idsIssued_of_AllocTableID place _ clusterName schemaName tableName nodeA (t, m1) hiss0 halloc
  obtain ⟨hrun1, c, s, c1, s1, hc, hs, hc1, hs1, ht1, hnew⟩ :=
    AllocTableID_ok_find place _ clusterName schemaName tableName nodeA t m1 halloc
  have hs1iss : s1.idsIssued :=
    hiss1 c1 (List.mem_of_find?_eq_some hc1) s1 (List.mem_of_find?_eq_some hs1)
  obtain ⟨hrun2, c2, s2, hc2, hs2, hret, hnone, halloc2⟩ :=
    DropTable_retired m1 m2 clusterName schemaName tableName t hrun1 c1 hc1 s1 hs1 ht1 hs1iss
      hdrop
  have hret2 : m2.retired clusterName schemaName t.id := ⟨hrun2, c2, hc2, s2, hs2, hret⟩
  have hret3 := retired_run place clusterName schemaName t.id ops m2 hret2
  obtain ⟨t', m4, hres, hne, hnext⟩ :=
    AllocTableID_after_retired place _ clusterName schemaName laterName nodeB t.id hret3 c3 hc3
      nB hnB
  refine ⟨t', m4, hres, hne, ?_⟩
  intro hname hops c' s' hc' hs' hnone'
  subst hname
  subst hops
  have hcc : c' = c := by rw [hc] at hc'; exact (Option.some.inj hc').symm
  subst hcc
  have hss : s' = s := by rw [hs] at hs'; exact (Option.some.inj hs').symm
  subst hss
  have hc32 : c3 = c2 := by
    have : m2.clusters.find? (fun x => x.name = clusterName) = some c3 := hc3
    rw [hc2] at this
    exact (Option.some.inj this).symm
  subst hc32
  obtain ⟨hid, hn1⟩ := hnew hnone'
  refine ⟨hid, ?_⟩
  rw [hnext s2 hs2 hnone, halloc2, hn1]

theorem DropTable_retires_id_witness :
    ∃ t' m4, AllocTableID (fun _ _ => 0)
        (((newTestClusterManager.run (fun _ _ => 0)
          [Op.createCluster cluster1 defaultNodeCount defaultReplicationFactor defaultShardTotal,
            Op.registerNode cluster1 node1 defaultLease,
            Op.registerNode cluster1 node2 defaultLease,
            Op.allocSchemaID cluster1 defaultSchema,
            Op.allocTableID cluster1 defaultSchema table1 node1,
            Op.dropTable cluster1 defaultSchema table1 0]).run (fun _ _ => 0) []))
        cluster1 defaultSchema table1 node2 = .ok (t', m4) ∧ t'.id = 1 := by
  obtain ⟨t', m4, hres, _, hnext⟩ := DropTable_retires_id (fun _ _ => 0) newTestClusterManager rfl
    [Op.createCluster cluster1 defaultNodeCount defaultReplicationFactor defaultShardTotal,
      Op.registerNode cluster1 node1 defaultLease,
      Op.registerNode cluster1 node2 defaultLease,
      Op.allocSchemaID cluster1 defaultSchema]
    cluster1 defaultSchema table1 node1 table1 node2
    ⟨0, table1, 0, some 0⟩ _ _ rfl rfl [] _ rfl _ rfl
  exact ⟨t', m4, hres, (hnext rfl rfl _ _ rfl rfl rfl).2⟩

end cluster
